import Mathlib

/-!
Verification development for the stork-analytics dashboard core: a shallow
embedding, in Lean 4, of the historical-transaction discovery and incremental
aggregation engine of the dashboard page component, together with theorems
about the embedded definitions.

Embedded pieces (all from the dashboard page component):
* the stats aggregation pipeline: `processTransactionForStats`, `addTransaction`
  and the per-asset / aggregate stats stores;
* the frequency statistics: `calculateUpdateStats`;
* the backward-chunked log scanner loop of `fetchTransactions` (range loop,
  batch retry loop, creation detection, adaptive chunk sizing, cancellation);
* the asset value scanner `scanValues` (batched first pass, bounded retry
  phase, not-found vs transient-error discrimination, cancellation).

Modelling conventions:
* JavaScript numbers used for gas, timestamps and delays are modelled as `ℚ`
  (exact arithmetic in place of IEEE doubles); counters and block numbers are
  `Nat`.
* JavaScript `Map`s are modelled as association lists in insertion order
  (`Map.set` on a present key updates in place, on an absent key appends);
  JavaScript `Set`s are lists without duplicates in insertion order.
* External collaborators (the RPC provider, the ABI decoder, the cancellation
  flag) are parameters of the model; the cancellation flag is a function of a
  poll counter, one poll per read of `abortController.signal.aborted`.
* Division by zero yields 0 in `ℚ` (Lean convention) where JavaScript would
  produce `Infinity`/`NaN`; every such site is reached by the code only in
  states the theorems below do not rely on, and is commented where it occurs.
-/

namespace StorkAnalytics

/-- JavaScript `Map.get`: value of the first entry with the given key. -/
def mapGet {α : Type} : List (String × α) → String → Option α
  | [], _ => none
  | p :: rest, k => if p.1 = k then some p.2 else mapGet rest k

/-- JavaScript `Map.set`: update the first entry with the key in place, or
append a new entry (insertion order). -/
def mapSet {α : Type} : List (String × α) → String → α → List (String × α)
  | [], k, v => [(k, v)]
  | p :: rest, k, v => if p.1 = k then (k, v) :: rest else p :: mapSet rest k v

/-- JavaScript `Set.add`: append if not already present. -/
def setInsert (l : List String) (x : String) : List String :=
  if x ∈ l then l else l ++ [x]

/-- Sum of `f` over the values of an association-list map. -/
def sumBy {α M : Type} [AddCommMonoid M] (m : List (String × α)) (f : α → M) : M :=
  (m.map (fun p => f p.2)).sum

theorem sumBy_nil {α M : Type} [AddCommMonoid M] (f : α → M) :
    sumBy ([] : List (String × α)) f = 0 := rfl

theorem sumBy_cons {α M : Type} [AddCommMonoid M] (p : String × α)
    (m : List (String × α)) (f : α → M) :
    sumBy (p :: m) f = f p.2 + sumBy m f := by
  simp [sumBy]

theorem sumBy_mapSet_none {α M : Type} [AddCommMonoid M] (m : List (String × α))
    (k : String) (v : α) (f : α → M) (h : mapGet m k = none) :
    sumBy (mapSet m k v) f = sumBy m f + f v := by
  induction m with
  | nil => simp [mapSet, sumBy]
  | cons p rest ih =>
    by_cases hk : p.1 = k
    · simp [mapGet, hk] at h
    · simp only [mapGet, hk, if_neg, ite_false] at h
      simp [mapSet, hk, sumBy_cons, ih h, add_assoc]

theorem sumBy_mapSet_some {α M : Type} [AddCommMonoid M] (m : List (String × α))
    (k : String) (v old : α) (f : α → M) (h : mapGet m k = some old) :
    sumBy (mapSet m k v) f + f old = sumBy m f + f v := by
  induction m with
  | nil => simp [mapGet] at h
  | cons p rest ih =>
    by_cases hk : p.1 = k
    · simp only [mapGet, hk, if_pos, ite_true, Option.some.injEq] at h
      subst h
      simp [mapSet, hk, sumBy_cons, add_comm, add_assoc, add_left_comm]
    · simp only [mapGet, hk, ite_false] at h
      simp [mapSet, hk, sumBy_cons, add_assoc, ih h]

/-- `[...new Set(list)]`: first occurrences, in order.  Defined through an
accumulator of the elements already seen. -/
def jsDedupGo (acc : List String) : List String → List String
  | [] => acc
  | x :: xs => if x ∈ acc then jsDedupGo acc xs else jsDedupGo (acc ++ [x]) xs

def jsDedup (l : List String) : List String := jsDedupGo [] l

theorem mem_jsDedupGo (a : String) (l acc : List String) :
    a ∈ jsDedupGo acc l ↔ a ∈ acc ∨ a ∈ l := by
  induction l generalizing acc with
  | nil => simp [jsDedupGo]
  | cons x xs ih =>
    by_cases hx : x ∈ acc
    · simp only [jsDedupGo, hx, ite_true, ih]
      constructor
      · rintro (h | h)
        · exact Or.inl h
        · exact Or.inr (List.mem_cons_of_mem _ h)
      · rintro (h | h)
        · exact Or.inl h
        · rcases List.mem_cons.mp h with h | h
          · exact Or.inl (h ▸ hx)
          · exact Or.inr h
    · simp only [jsDedupGo, hx, ite_false, ih]
      simp only [List.mem_append, List.mem_singleton, List.mem_cons]
      tauto

theorem mem_jsDedup (a : String) (l : List String) : a ∈ jsDedup l ↔ a ∈ l := by
  simp [jsDedup, mem_jsDedupGo]

/-- Split a list into chunks of `n` elements (the final chunk may be
shorter); mirrors the `for (let i = 0; i < xs.length; i += n)` slicing.
The structural `fuel` argument bounds the number of chunks; it is
initialised to the list length, which always suffices. -/
def chunkListFuel {α : Type} (n : Nat) : Nat → List α → List (List α)
  | 0, _ => []
  | _, [] => []
  | fuel + 1, x :: xs => (x :: xs.take (n - 1)) :: chunkListFuel n fuel (xs.drop (n - 1))

def chunkList {α : Type} (n : Nat) (l : List α) : List (List α) :=
  chunkListFuel n l.length l

theorem chunkListFuel_flatten {α : Type} (n fuel : Nat) (l : List α)
    (h : l.length ≤ fuel) : (chunkListFuel n fuel l).flatten = l := by
  induction fuel generalizing l with
  | zero =>
    cases l with
    | nil => rfl
    | cons x xs => simp at h
  | succ fuel ih =>
    cases l with
    | nil => rfl
    | cons x xs =>
      simp only [chunkListFuel, List.flatten_cons, List.cons_append]
      rw [ih (xs.drop (n - 1)) (by simp at h ⊢; omega)]
      simp [List.take_append_drop]

theorem chunkList_flatten {α : Type} (n : Nat) (l : List α) :
    (chunkList n l).flatten = l :=
  chunkListFuel_flatten n l.length l le_rfl

theorem mem_chunkList_flatten {α : Type} (n : Nat) (l : List α) (a : α) :
    (∃ c ∈ chunkList n l, a ∈ c) ↔ a ∈ l := by
  rw [← List.mem_flatten, chunkList_flatten]

end StorkAnalytics

namespace StorkAnalytics

/-! ## Data model of the aggregation pipeline -/

/-- One decoded oracle update, as produced by `processUpdateData`: the fields
consumed downstream by `processTransactionForStats` (`assetName`,
`rawTimestamp`, `rawValue`; the raw strings are modelled as the rational
numbers they denote). -/
structure DecodedUpdate where
  assetName : String
  rawTimestamp : ℚ
  rawValue : ℚ
deriving DecidableEq, Repr

/-- Result of `decodeInput` when it recognises an `updateTemporalNumericValuesV1`
call.  `updates` is `none` when `processUpdateData` returned `null`
(missing `args[0]`). -/
structure DecodedInput where
  updates : Option (List DecodedUpdate)
deriving DecidableEq, Repr

/-- The receipt fields the core reads: `contractAddress` (populated only on
contract creation) and `gasUsed`. -/
structure RawReceipt where
  contractAddress : Option String
  gasUsed : ℚ
deriving DecidableEq, Repr

/-- The transaction fields the core reads.  The source field `from` is a Lean
keyword and is modelled as `sender`; `to` is likewise reserved and modelled
as `toAddr`.  `toAddr = none` signals contract creation.
`blockNumber` is modelled as total (`ethers` populates it for mined
transactions; the source guards `|| 0` on the null case). -/
structure RawTx where
  hash : String
  sender : String
  toAddr : Option String
  blockNumber : Nat
  data : String
deriving DecidableEq, Repr

/-- A stored transaction: raw transaction + receipt + decoded input
(`enrichedTx` in `addTransaction`). -/
structure EnrichedTx where
  tx : RawTx
  receipt : Option RawReceipt
  decodedInput : DecodedInput
deriving DecidableEq, Repr

/-- One entry of an asset's `updates` list (interface `AssetUpdate`). -/
structure AssetUpdate where
  timestamp : ℚ
  value : ℚ
  sender : String
  txHash : String
  gasUsed : ℚ
deriving DecidableEq, Repr

/-- Interface `UpdaterGasStats`. -/
structure UpdaterGasStats where
  totalGas : ℚ
  updateCount : Nat
  averageGas : ℚ
deriving DecidableEq, Repr

/-- Interface `AssetStats`; `uniqueUpdaters` is a JavaScript `Set` modelled as
a duplicate-free list, `updaterGasStats` a `Map` modelled as an association
list. -/
structure AssetStats where
  assetName : String
  updateCount : Nat
  uniqueUpdaters : List String
  updates : List AssetUpdate
  lastUpdate : Option AssetUpdate
  totalGas : ℚ
  updaterGasStats : List (String × UpdaterGasStats)
deriving DecidableEq, Repr

/-- The `aggregateStatsStore` contents.  `totalAssets` is initialised to 0 and
never written by the pipeline (the UI reads the stats map size instead). -/
structure AggregateStats where
  totalAssets : Nat
  totalUpdates : Nat
  totalUniqueUpdaters : List String
  totalGas : ℚ
  updaterGasStats : List (String × UpdaterGasStats)
deriving DecidableEq, Repr

/-- The mutable state touched by transaction ingestion: `transactionStore`,
`assetStatsStore` and `aggregateStatsStore`. -/
structure StatsState where
  txs : List EnrichedTx
  assetStats : List (String × AssetStats)
  agg : AggregateStats
deriving DecidableEq, Repr

def initAggregateStats : AggregateStats :=
  { totalAssets := 0, totalUpdates := 0, totalUniqueUpdaters := [],
    totalGas := 0, updaterGasStats := [] }

/-- The store contents produced by `resetStores`. -/
def initStats : StatsState :=
  { txs := [], assetStats := [], agg := initAggregateStats }

/-- Shared shape of the per-updater gas bookkeeping (both the per-asset and
the aggregate copy): add the share, bump the count, recompute the average. -/
def bumpUpdaterGas (m : List (String × UpdaterGasStats)) (sender : String)
    (gasShare : ℚ) : List (String × UpdaterGasStats) :=
  let cur := (mapGet m sender).getD { totalGas := 0, updateCount := 0, averageGas := 0 }
  let total := cur.totalGas + gasShare
  let cnt := cur.updateCount + 1
  mapSet m sender { totalGas := total, updateCount := cnt, averageGas := total / cnt }

def defaultAssetStats (assetName : String) : AssetStats :=
  { assetName := assetName, updateCount := 0, uniqueUpdaters := [], updates := [],
    lastUpdate := none, totalGas := 0, updaterGasStats := [] }

/-- Body of the first `forEach` of `processTransactionForStats`: fold one
decoded update into the per-asset stats map. -/
def applyAssetUpdate (sender txHash : String) (gasPerUpdate : ℚ)
    (m : List (String × AssetStats)) (u : DecodedUpdate) :
    List (String × AssetStats) :=
  let assetId := u.assetName
  let cur := (mapGet m assetId).getD (defaultAssetStats assetId)
  let newUpdate : AssetUpdate :=
    { timestamp := u.rawTimestamp / 1000000,
      value := u.rawValue / 1000000000000000000,
      sender := sender, txHash := txHash, gasUsed := gasPerUpdate }
  let cur := { cur with updaterGasStats := bumpUpdaterGas cur.updaterGasStats sender gasPerUpdate }
  let cur := { cur with
    totalGas := cur.totalGas + gasPerUpdate,
    updateCount := cur.updateCount + 1,
    uniqueUpdaters := setInsert cur.uniqueUpdaters sender,
    updates := cur.updates ++ [newUpdate] }
  let cur :=
    match cur.lastUpdate with
    | none => { cur with lastUpdate := some newUpdate }
    | some lu =>
      if lu.timestamp < newUpdate.timestamp then { cur with lastUpdate := some newUpdate }
      else cur
  mapSet m assetId cur

/-- Body of the second `forEach` of `processTransactionForStats`: fold one
decoded update into the aggregate stats. -/
def applyAggUpdate (sender : String) (gasShare : ℚ) (agg : AggregateStats)
    (_u : DecodedUpdate) : AggregateStats :=
  { agg with
    totalUpdates := agg.totalUpdates + 1,
    totalUniqueUpdaters := setInsert agg.totalUniqueUpdaters sender,
    totalGas := agg.totalGas + gasShare,
    updaterGasStats := bumpUpdaterGas agg.updaterGasStats sender gasShare }

/-- `processTransactionForStats`: splits the receipt's gas evenly across the
transaction's updates and folds every update into both stores.  When the
updates list is empty the division is by zero (`Infinity`/`NaN` in
JavaScript, 0 in `ℚ`); in both semantics the two `forEach` loops then do
nothing, so no store is touched. -/
def processTransactionForStats (st : StatsState) (etx : EnrichedTx) : StatsState :=
  match etx.decodedInput.updates with
  | none => st
  | some updates =>
    let updatesCount : ℚ := updates.length
    let gasUsed : ℚ := match etx.receipt with | some r => r.gasUsed | none => 0
    let gasPerUpdate := gasUsed / updatesCount
    let assetStats' := updates.foldl (applyAssetUpdate etx.tx.sender etx.tx.hash gasPerUpdate) st.assetStats
    let agg' := updates.foldl (applyAggUpdate etx.tx.sender (gasUsed / updatesCount)) st.agg
    { st with assetStats := assetStats', agg := agg' }

/-- ASCII lower-casing of one character (all addresses compared by the code
are ASCII hex strings, so this matches `toLowerCase`). -/
def lowerChar (c : Char) : Char :=
  if 65 ≤ c.toNat ∧ c.toNat ≤ 90 then Char.ofNat (c.toNat + 32) else c

/-- Model of `String.prototype.toLowerCase` on the ASCII addresses the code
compares. -/
def jsToLower (s : String) : String := String.mk (s.data.map lowerChar)

/-- The `!tx.to || tx.to.toLowerCase() === contractAddress.toLowerCase()`
filter of `addTransaction`. -/
def passesToFilter (contractAddress : String) (tx : RawTx) : Bool :=
  match tx.toAddr with
  | none => true
  | some a => jsToLower a == jsToLower contractAddress

/-- Stable insertion into a list sorted by descending block number (ties keep
earlier elements first, as JavaScript's stable `sort` does). -/
def insertTxDesc (x : EnrichedTx) : List EnrichedTx → List EnrichedTx
  | [] => [x]
  | y :: ys =>
    if y.tx.blockNumber ≤ x.tx.blockNumber then x :: y :: ys
    else y :: insertTxDesc x ys

/-- `[enrichedTx, ...txs].sort((a, b) => (b.blockNumber || 0) - (a.blockNumber || 0))`. -/
def sortTxsDesc (l : List EnrichedTx) : List EnrichedTx :=
  l.foldr insertTxDesc []

/-- `addTransaction(tx, receipt)`: keep only transactions to the target (or
creations), keep only inputs that decode as `updateTemporalNumericValuesV1`
calls, dedup by hash, then feed the stats pipeline and prepend to the sorted
transaction store.  `decode` abstracts `decodeInput` (the `ethers` ABI
parse); an empty `data` string is falsy and short-circuits to `null`. -/
def addTransaction (contractAddress : String) (decode : String → Option DecodedInput)
    (st : StatsState) (tx? : Option RawTx) (receipt : Option RawReceipt) : StatsState :=
  match tx? with
  | none => st
  | some tx =>
    if passesToFilter contractAddress tx then
      match (if tx.data ≠ "" then decode tx.data else none) with
      | none => st
      | some d =>
        match st.txs.find? (fun t => t.tx.hash == tx.hash) with
        | some _ => st
        | none =>
          let etx : EnrichedTx := { tx := tx, receipt := receipt, decodedInput := d }
          let st' := processTransactionForStats st etx
          { st' with txs := sortTxsDesc (etx :: st'.txs) }
    else st

/-- Ingest a whole stream of `(transaction, receipt)` pairs, starting from the
reset stores. -/
def ingestAll (contractAddress : String) (decode : String → Option DecodedInput)
    (inputs : List (Option RawTx × Option RawReceipt)) : StatsState :=
  inputs.foldl (fun s p => addTransaction contractAddress decode s p.1 p.2) initStats

end StorkAnalytics

namespace StorkAnalytics

/-! ## Frequency statistics: `calculateUpdateStats` -/

/-- The `timeframe` parameter of `calculateUpdateStats`. -/
inductive Timeframe where
  | day | week | month | year | all
deriving DecidableEq, Repr

/-- Return type of `calculateUpdateStats`. -/
structure UpdateStatsResult where
  averageFrequency : ℚ
  medianFrequency : ℚ
  updatesPerDay : ℚ
  maxGap : ℚ
  minGap : ℚ
deriving DecidableEq, Repr

/-- The defined zero result returned on fewer than two (in-window) updates. -/
def zeroUpdateStats : UpdateStatsResult :=
  { averageFrequency := 0, medianFrequency := 0, updatesPerDay := 0,
    maxGap := 0, minGap := 0 }

/-- The `timeframeMs` assigned in the `switch`; stays 0 for `all`. -/
def timeframeMsOf : Timeframe → ℚ
  | .day => 24 * 60 * 60 * 1000
  | .week => 7 * 24 * 60 * 60 * 1000
  | .month => 30 * 24 * 60 * 60 * 1000
  | .year => 365 * 24 * 60 * 60 * 1000
  | .all => 0

/-- Stable insertion into a list of updates sorted by ascending timestamp,
modelling `sort((a, b) => a.timestamp - b.timestamp)`. -/
def insertUpdateAsc (x : AssetUpdate) : List AssetUpdate → List AssetUpdate
  | [] => [x]
  | y :: ys =>
    if x.timestamp ≤ y.timestamp then x :: y :: ys
    else y :: insertUpdateAsc x ys

def sortUpdatesAsc (l : List AssetUpdate) : List AssetUpdate :=
  l.foldr insertUpdateAsc []

/-- Stable insertion sort for the gap list, `sort((a, b) => a - b)`. -/
def insertQAsc (x : ℚ) : List ℚ → List ℚ
  | [] => [x]
  | y :: ys => if x ≤ y then x :: y :: ys else y :: insertQAsc x ys

def sortQAsc (l : List ℚ) : List ℚ :=
  l.foldr insertQAsc []

/-- Pairwise gaps between consecutive updates of a (sorted) list. -/
def pairGaps : List AssetUpdate → List ℚ
  | a :: b :: rest => (b.timestamp - a.timestamp) :: pairGaps (b :: rest)
  | _ => []

/-- `Math.max(...l)`; on the empty list JavaScript yields `-Infinity`, which is
unreachable here (the gap list always has at least one element when used). -/
def listMax : List ℚ → ℚ
  | [] => 0
  | x :: xs => xs.foldl max x

/-- `Math.min(...l)`; same remark as `listMax`. -/
def listMin : List ℚ → ℚ
  | [] => 0
  | x :: xs => xs.foldl min x

def defaultAssetUpdate : AssetUpdate :=
  { timestamp := 0, value := 0, sender := "", txHash := "", gasUsed := 0 }

/-- `calculateUpdateStats(updates, timeframe)`; `now` abstracts `Date.now()`.
The windows `day`/`week`/`month`/`year` filter to `timestamp >= cutoff`;
`all` keeps everything and measures the observed span instead of a calendar
window.  Note the average is `timeframe_ms / relevantUpdates.length`
(window span over the update count), while median, max and min come from
the pairwise gap list.  On a zero span with timeframe `all`, JavaScript
divides by zero (the claims below never evaluate that state). -/
def calculateUpdateStats (updates : List AssetUpdate) (tf : Timeframe) (now : ℚ) :
    UpdateStatsResult :=
  if updates.length < 2 then zeroUpdateStats
  else
    let timeframeMs := timeframeMsOf tf
    let cutoff := match tf with | .all => now | _ => now - timeframeMs
    let relevantUpdates := match tf with
      | .all => updates
      | _ => updates.filter (fun u => cutoff ≤ u.timestamp)
    if relevantUpdates.length < 2 then zeroUpdateStats
    else
      let sortedUpdates := sortUpdatesAsc relevantUpdates
      let gaps := pairGaps sortedUpdates
      let maxGap := listMax gaps
      let minGap := listMin gaps
      let sortedGaps := sortQAsc gaps
      let medianFrequency := sortedGaps.getD (sortedGaps.length / 2) 0
      let span := (sortedUpdates.getLastD defaultAssetUpdate).timestamp
        - (sortedUpdates.headD defaultAssetUpdate).timestamp
      let timeframe2 := match tf with | .all => span | _ => timeframeMs
      let updatesPerDay := ((relevantUpdates.length : ℚ) / timeframe2) * (24 * 60 * 60 * 1000)
      { averageFrequency := timeframe2 / (relevantUpdates.length : ℚ),
        medianFrequency := medianFrequency,
        updatesPerDay := updatesPerDay,
        maxGap := maxGap, minGap := minGap }

end StorkAnalytics

namespace StorkAnalytics

/-! ## C1: the aggregate roll-up stays consistent with the per-asset stats -/

/-- The roll-up invariant relating the aggregate store to the per-asset map. -/
def rollupConsistent (st : StatsState) : Prop :=
  st.agg.totalUpdates = sumBy st.assetStats (fun a => a.updateCount) ∧
  st.agg.totalGas = sumBy st.assetStats (fun a => a.totalGas)

theorem applyAssetUpdate_eq_mapSet (sender txHash : String) (g : ℚ)
    (m : List (String × AssetStats)) (u : DecodedUpdate) :
    ∃ v, applyAssetUpdate sender txHash g m u = mapSet m u.assetName v ∧
      v.updateCount = ((mapGet m u.assetName).getD (defaultAssetStats u.assetName)).updateCount + 1 ∧
      v.totalGas = ((mapGet m u.assetName).getD (defaultAssetStats u.assetName)).totalGas + g := by
  unfold applyAssetUpdate
  dsimp only
  split
  · exact ⟨_, rfl, rfl, rfl⟩
  · split
    · exact ⟨_, rfl, rfl, rfl⟩
    · exact ⟨_, rfl, rfl, rfl⟩

theorem sumBy_updateCount_applyAssetUpdate (sender txHash : String) (g : ℚ)
    (m : List (String × AssetStats)) (u : DecodedUpdate) :
    sumBy (applyAssetUpdate sender txHash g m u) (fun a => a.updateCount) =
      sumBy m (fun a => a.updateCount) + 1 := by
  obtain ⟨v, heq, hcount, -⟩ := applyAssetUpdate_eq_mapSet sender txHash g m u
  rw [heq]
  cases hget : mapGet m u.assetName with
  | none =>
    rw [sumBy_mapSet_none _ _ _ _ hget]
    rw [hget] at hcount
    simp [defaultAssetStats] at hcount
    omega
  | some old =>
    have h2 : sumBy (mapSet m u.assetName v) (fun a => a.updateCount) + old.updateCount =
        sumBy m (fun a => a.updateCount) + v.updateCount :=
      sumBy_mapSet_some m u.assetName v old (fun a => a.updateCount) hget
    rw [hget] at hcount
    simp only [Option.getD_some] at hcount
    omega

theorem sumBy_totalGas_applyAssetUpdate (sender txHash : String) (g : ℚ)
    (m : List (String × AssetStats)) (u : DecodedUpdate) :
    sumBy (applyAssetUpdate sender txHash g m u) (fun a => a.totalGas) =
      sumBy m (fun a => a.totalGas) + g := by
  obtain ⟨v, heq, -, hgas⟩ := applyAssetUpdate_eq_mapSet sender txHash g m u
  rw [heq]
  cases hget : mapGet m u.assetName with
  | none =>
    rw [sumBy_mapSet_none _ _ _ _ hget]
    rw [hget] at hgas
    simp only [Option.getD_none, defaultAssetStats] at hgas
    rw [hgas]
    ring
  | some old =>
    have h2 : sumBy (mapSet m u.assetName v) (fun a => a.totalGas) + old.totalGas =
        sumBy m (fun a => a.totalGas) + v.totalGas :=
      sumBy_mapSet_some m u.assetName v old (fun a => a.totalGas) hget
    rw [hget] at hgas
    simp only [Option.getD_some] at hgas
    rw [hgas] at h2
    linarith

theorem sumBy_updateCount_foldAsset (sender txHash : String) (g : ℚ)
    (m : List (String × AssetStats)) (us : List DecodedUpdate) :
    sumBy (us.foldl (applyAssetUpdate sender txHash g) m) (fun a => a.updateCount) =
      sumBy m (fun a => a.updateCount) + us.length := by
  induction us generalizing m with
  | nil => simp
  | cons u us ih =>
    simp only [List.foldl_cons, List.length_cons, ih,
      sumBy_updateCount_applyAssetUpdate]
    omega

theorem sumBy_totalGas_foldAsset (sender txHash : String) (g : ℚ)
    (m : List (String × AssetStats)) (us : List DecodedUpdate) :
    sumBy (us.foldl (applyAssetUpdate sender txHash g) m) (fun a => a.totalGas) =
      sumBy m (fun a => a.totalGas) + us.length * g := by
  induction us generalizing m with
  | nil => simp
  | cons u us ih =>
    simp only [List.foldl_cons, List.length_cons, ih,
      sumBy_totalGas_applyAssetUpdate]
    push_cast
    ring

theorem totalUpdates_foldAgg (sender : String) (g : ℚ) (agg : AggregateStats)
    (us : List DecodedUpdate) :
    (us.foldl (applyAggUpdate sender g) agg).totalUpdates =
      agg.totalUpdates + us.length := by
  induction us generalizing agg with
  | nil => simp
  | cons u us ih =>
    simp only [List.foldl_cons, List.length_cons, ih, applyAggUpdate]
    omega

theorem totalGas_foldAgg (sender : String) (g : ℚ) (agg : AggregateStats)
    (us : List DecodedUpdate) :
    (us.foldl (applyAggUpdate sender g) agg).totalGas =
      agg.totalGas + us.length * g := by
  induction us generalizing agg with
  | nil => simp
  | cons u us ih =>
    simp only [List.foldl_cons, List.length_cons, ih, applyAggUpdate]
    push_cast
    ring

theorem rollupConsistent_processTransactionForStats (st : StatsState)
    (etx : EnrichedTx) (h : rollupConsistent st) :
    rollupConsistent (processTransactionForStats st etx) := by
  unfold processTransactionForStats
  cases hupd : etx.decodedInput.updates with
  | none => exact h
  | some updates =>
    obtain ⟨h1, h2⟩ := h
    constructor
    · simp only [totalUpdates_foldAgg, sumBy_updateCount_foldAsset, h1]
    · simp only [totalGas_foldAgg, sumBy_totalGas_foldAsset, h2]

theorem rollupConsistent_addTransaction (contractAddress : String)
    (decode : String → Option DecodedInput) (st : StatsState)
    (tx? : Option RawTx) (receipt : Option RawReceipt)
    (h : rollupConsistent st) :
    rollupConsistent (addTransaction contractAddress decode st tx? receipt) := by
  unfold addTransaction
  cases tx? with
  | none => exact h
  | some tx =>
    dsimp only
    split
    · split
      · exact h
      · split
        · exact h
        · exact rollupConsistent_processTransactionForStats st _ h
    · exact h

end StorkAnalytics

namespace StorkAnalytics

theorem rollupConsistent_ingest (contractAddress : String)
    (decode : String → Option DecodedInput)
    (inputs : List (Option RawTx × Option RawReceipt)) (st : StatsState)
    (h : rollupConsistent st) :
    rollupConsistent
      (inputs.foldl (fun s p => addTransaction contractAddress decode s p.1 p.2) st) := by
  induction inputs generalizing st with
  | nil => exact h
  | cons p rest ih =>
    exact ih _ (rollupConsistent_addTransaction contractAddress decode st p.1 p.2 h)

/-- C1: for every sequence of transactions ingested by the stats aggregator,
the aggregate roll-up stays consistent with the per-asset stats:
`AggregateStats.totalUpdates` equals the sum of `AssetStats.updateCount`
over all assets, and `AggregateStats.totalGas` equals the sum of
`AssetStats.totalGas` over all assets (exactly, in `ℚ`, hence within any
floating-point tolerance). -/
theorem C1_aggregate_rollup_consistent (contractAddress : String)
    (decode : String → Option DecodedInput)
    (inputs : List (Option RawTx × Option RawReceipt)) :
    (ingestAll contractAddress decode inputs).agg.totalUpdates =
      sumBy (ingestAll contractAddress decode inputs).assetStats (fun a => a.updateCount) ∧
    (ingestAll contractAddress decode inputs).agg.totalGas =
      sumBy (ingestAll contractAddress decode inputs).assetStats (fun a => a.totalGas) :=
  rollupConsistent_ingest contractAddress decode inputs initStats ⟨rfl, rfl⟩

/-- C2: transaction ingestion is idempotent with respect to transaction hash:
if the store already holds a transaction with the same hash, `addTransaction`
returns the state unchanged — the transaction store, the per-asset stats and
the aggregate stats are all untouched. -/
theorem C2_addTransaction_idempotent (contractAddress : String)
    (decode : String → Option DecodedInput) (st : StatsState) (tx : RawTx)
    (receipt : Option RawReceipt)
    (h : ∃ e ∈ st.txs, e.tx.hash = tx.hash) :
    addTransaction contractAddress decode st (some tx) receipt = st := by
  unfold addTransaction
  dsimp only
  split
  · split
    · rfl
    · have hfind : (st.txs.find? (fun t => t.tx.hash == tx.hash)).isSome := by
        rw [List.find?_isSome]
        obtain ⟨e, he, hh⟩ := h
        exact ⟨e, he, by simp [hh]⟩
      split
      · rfl
      · next hnone => rw [hnone] at hfind; simp at hfind
  · rfl

def txW : RawTx :=
  { hash := "0xabc", sender := "0xdead", toAddr := some "0xc", blockNumber := 3,
    data := "upd" }

def decodeW : String → Option DecodedInput :=
  fun s => if s = "upd" then some { updates := some [] } else none

def stW : StatsState := addTransaction "0xc" decodeW initStats (some txW) none

theorem C2_addTransaction_idempotent_witness :
    (∃ e ∈ stW.txs, e.tx.hash = txW.hash) ∧
    addTransaction "0xc" decodeW stW (some txW) none = stW :=
  ⟨by decide,
   C2_addTransaction_idempotent "0xc" decodeW stW txW none (by decide)⟩

def c3Updates : List AssetUpdate :=
  [ { defaultAssetUpdate with timestamp := 0 },
    { defaultAssetUpdate with timestamp := 10 },
    { defaultAssetUpdate with timestamp := 30 },
    { defaultAssetUpdate with timestamp := 60 } ]

/-- C3 counterexample: on 4 chronologically sorted updates with pairwise gaps
[10, 20, 30] ms spanning 60 ms, `calculateUpdateStats` returns an average of
`60 / 4 = 15` (span divided by the update count), not the claimed
`60 / 3 = 20` (span divided by the interval count). -/
theorem C3_counterexample :
    (calculateUpdateStats c3Updates .all 0).averageFrequency = 15 ∧
    ¬ (calculateUpdateStats c3Updates .all 0).averageFrequency = 60 / 3 := by
  constructor
  · norm_num [calculateUpdateStats, c3Updates, defaultAssetUpdate, sortUpdatesAsc,
      insertUpdateAsc, sortQAsc, insertQAsc, pairGaps, listMax, listMin,
      zeroUpdateStats, timeframeMsOf]
  · norm_num [calculateUpdateStats, c3Updates, defaultAssetUpdate, sortUpdatesAsc,
      insertUpdateAsc, sortQAsc, insertQAsc, pairGaps, listMax, listMin,
      zeroUpdateStats, timeframeMsOf]

/-- C3 amended: on the 4-update input with gaps [10, 20, 30] the result has
median gap 20, max gap 30, min gap 10 and span-based average `60 / 4 = 15`
(updates-per-day `4 / 60 ms × 86400000 = 5760000`); and on fewer than two
updates — an empty list, a single update, or two updates both outside the
selected window — it returns the defined all-zero result, not an
exception. -/
theorem C3_amended_calculateUpdateStats :
    calculateUpdateStats c3Updates .all 0 =
      { averageFrequency := 15, medianFrequency := 20, updatesPerDay := 5760000,
        maxGap := 30, minGap := 10 } ∧
    (∀ (tf : Timeframe) (now : ℚ) (u : AssetUpdate),
      calculateUpdateStats [u] tf now = zeroUpdateStats) ∧
    (∀ (tf : Timeframe) (now : ℚ),
      calculateUpdateStats [] tf now = zeroUpdateStats) ∧
    calculateUpdateStats
      [ { defaultAssetUpdate with timestamp := 0 },
        { defaultAssetUpdate with timestamp := 1 } ] .day
      (2 * 24 * 60 * 60 * 1000) = zeroUpdateStats := by
  refine ⟨?_, ?_, ?_, ?_⟩
  · norm_num [calculateUpdateStats, c3Updates, defaultAssetUpdate, sortUpdatesAsc,
      insertUpdateAsc, sortQAsc, insertQAsc, pairGaps, listMax, listMin,
      zeroUpdateStats, timeframeMsOf]
  · intro tf now u
    rfl
  · intro tf now
    rfl
  · norm_num [calculateUpdateStats, defaultAssetUpdate, zeroUpdateStats,
      timeframeMsOf, List.filter]

end StorkAnalytics

namespace StorkAnalytics

/-! ## The backward-chunked log scanner (`fetchTransactions`, lines 945-1080)

The loop is embedded as a fuel-indexed step function over an explicit state.
External effects are parameters of a `ScanEnv`:

* `getLogsCall` is the provider's `getLogs`, indexed by a per-run call
  counter (so a simulated provider can fail a range once and then succeed);
  a thrown error is abstracted by `RangeErr`, whose `rateLimit` field is the
  `message/status` heuristic of lines 1053-1057 evaluated on the error.
* `getTx` / `getReceipt` are `getTransaction` / `getTransactionReceipt`;
  a whole transaction-batch attempt either succeeds or throws according to
  `batchFails`, indexed by a per-run batch-attempt counter (the rejection of
  the `Promise.all` of lines 987-990).
* `aborted` is `abortController.signal.aborted` as a function of a poll
  counter; every read of the flag consumes one poll tick.

Instrumentation fields that merely record what the run did (they influence
nothing): `fetched` lists every hash of every issued transaction-batch
request, `sleeps` every awaited delay.
-/

/-- One log entry as consumed by the scanner (`transactionHash`,
`blockNumber`). -/
structure LogEntry where
  transactionHash : String
  blockNumber : Nat
deriving DecidableEq, Repr

/-- A range-fetch error; `rateLimit` is the result of the
`rate`/`limit`/`429` message-and-status heuristic on the thrown error. -/
structure RangeErr where
  rateLimit : Bool
deriving DecidableEq, Repr

/-- The environment of one `fetchTransactions` run. -/
structure ScanEnv where
  contractAddress : String
  decode : String → Option DecodedInput
  getLogsCall : Nat → Nat → Nat → Except RangeErr (List LogEntry)
  getTx : String → Option RawTx
  getReceipt : String → Option RawReceipt
  batchFails : Nat → Bool
  aborted : Nat → Bool

/-- The mutable state of the range loop: the cursor variables of lines
945-949, the stores, and the run counters/instrumentation. -/
structure ScanSt where
  block : Nat
  chunkSize : Nat
  consecutiveSuccesses : Nat
  consecutiveFailures : Nat
  retryDelay : ℚ
  foundCreation : Bool
  store : StatsState
  callIdx : Nat
  batchTick : Nat
  tick : Nat
  fetched : List String
  sleeps : List ℚ

/-- Initial state of a run (`block = latestBlock`, `chunkSize = 100_000`,
`retryDelay = 1000`, stores reset). -/
def initScanSt (latestBlock : Nat) : ScanSt :=
  { block := latestBlock, chunkSize := 100000, consecutiveSuccesses := 0,
    consecutiveFailures := 0, retryDelay := 1000, foundCreation := false,
    store := initStats, callIdx := 0, batchTick := 0, tick := 0,
    fetched := [], sleeps := [] }

/-- `receipt?.contractAddress?.toLowerCase() === contractAddress.toLowerCase()`. -/
def isCreationReceipt (contractAddress : String) (r? : Option RawReceipt) : Bool :=
  match r? with
  | none => false
  | some r =>
    match r.contractAddress with
    | none => false
    | some a => jsToLower a == jsToLower contractAddress

/-- Stable insertion into a list of logs sorted by descending block number,
modelling `sort((a, b) => (b.blockNumber || 0) - (a.blockNumber || 0))`. -/
def insertLogDesc (x : LogEntry) : List LogEntry → List LogEntry
  | [] => [x]
  | y :: ys =>
    if y.blockNumber ≤ x.blockNumber then x :: y :: ys
    else y :: insertLogDesc x ys

def sortLogsDesc (l : List LogEntry) : List LogEntry :=
  l.foldr insertLogDesc []

/-- The distinct transaction hashes of a range's logs, most recent block
first: `[...new Set(sortedLogs.map(log => log.transactionHash).filter(Boolean))]`. -/
def rangeTxHashes (logs : List LogEntry) : List String :=
  jsDedup (((sortLogsDesc logs).map LogEntry.transactionHash).filter (fun h => h ≠ ""))

/-- The per-batch retry loop (lines 979-1019):
`while (!batchSuccess && batchRetries < 3 && !aborted)`.  A successful
attempt fetches every transaction/receipt of the batch, feeds them to
`addTransaction` and scans the receipts for contract creation; a failed
attempt bumps the retry counters, and sleeps/backs off if another retry is
allowed.  `batchConsecutiveFailures` (`bcf`) is the loop-local counter of
line 982: it is reset for every batch, so the `>= 50` fatal check of line
1011 can never fire (the retry bound keeps it at most 3) — a batch that
fails three attempts is silently skipped.  The structural `fuel` argument
of the auxiliary recursion equals the retry bound 3 and is never exhausted
(every recursive call has `retries + 1 < 3`). -/
def runBatchAux (env : ScanEnv) (batch : List String) :
    Nat → Nat → Nat → ScanSt → Except String ScanSt
  | 0, _, _, st => Except.ok st
  | fuel + 1, retries, bcf, st =>
    if retries < 3 then
      if env.aborted st.tick then Except.ok { st with tick := st.tick + 1 }
      else
        let st1 : ScanSt :=
          { st with
            tick := st.tick + 1, batchTick := st.batchTick + 1,
            fetched := st.fetched ++ batch }
        if env.batchFails st.batchTick then
          let bcf1 := bcf + 1
          if bcf1 ≥ 50 then
            Except.error "Too many consecutive failures (50+). The RPC endpoint might be unstable."
          else if retries + 1 < 3 then
            runBatchAux env batch fuel (retries + 1) bcf1
              { st1 with
                sleeps := st1.sleeps ++ [st1.retryDelay],
                retryDelay := min (st1.retryDelay * 3 / 2) 10000 }
          else Except.ok st1
        else
          let store1 := batch.foldl
            (fun s h => addTransaction env.contractAddress env.decode s (env.getTx h) (env.getReceipt h))
            st1.store
          let creation := (batch.map env.getReceipt).any (isCreationReceipt env.contractAddress)
          Except.ok { st1 with
            store := store1,
            foundCreation := st1.foundCreation || creation }
    else Except.ok st

def runBatch (env : ScanEnv) (batch : List String) (st : ScanSt) :
    Except String ScanSt :=
  runBatchAux env batch 3 0 0 st

/-- The `for (const batch of batches)` loop (lines 979-1022), including the
`if (foundCreation) break` after each batch. -/
def processBatches (env : ScanEnv) : List (List String) → ScanSt → Except String ScanSt
  | [], st => Except.ok st
  | b :: rest, st =>
    match runBatch env b st with
    | Except.error e => Except.error e
    | Except.ok st' =>
      if st'.foundCreation then Except.ok st'
      else processBatches env rest st'

/-- Bookkeeping after a successful, non-creation range (lines 1026-1041):
success counters, delay decay, adaptive chunk growth (×1.5 after two
consecutive successes, cap 500_000), then `block = fromBlock - 1`. -/
def rangeSuccessStep (st : ScanSt) (fromBlock : Nat) : ScanSt :=
  let st1 := { st with
    consecutiveSuccesses := st.consecutiveSuccesses + 1,
    consecutiveFailures := 0,
    retryDelay := max 1000 (st.retryDelay * 2 / 3) }
  let st2 :=
    if st1.consecutiveSuccesses ≥ 2 then
      let newChunkSize := min 500000 (st1.chunkSize * 3 / 2)
      if newChunkSize ≠ st1.chunkSize then
        { st1 with chunkSize := newChunkSize, consecutiveSuccesses := 0 }
      else st1
    else st1
  { st2 with block := fromBlock - 1 }

/-- Bookkeeping after a failed range fetch (lines 1043-1070), after the
consecutive-failure counters have been bumped and the fatal ceiling checked:
rate-limit errors double the delay (cap 10 s) and wait; other errors shrink
the chunk (÷2, or ÷4 after more than 2 consecutive failures, floor 1_000).
The cursor `block` is not touched — the same upper bound is retried. -/
def rangeFailureStep (st : ScanSt) (e : RangeErr) : ScanSt :=
  if e.rateLimit then
    let d := min (st.retryDelay * 2) 10000
    { st with retryDelay := d, sleeps := st.sleeps ++ [d] }
  else
    let reduction := if st.consecutiveFailures > 2 then 4 else 2
    { st with chunkSize := max 1000 (st.chunkSize / reduction) }

/-- Result of one iteration of the range loop. -/
inductive IterResult where
  | exit (st : ScanSt)
  | fatal (msg : String)
  | next (st : ScanSt)

/-- One iteration of
`for (let block = latestBlock; block > 0 && !aborted;)` (lines 952-1072).
`fromBlock = max(0, block - chunkSize + 1)` is `block + 1 - chunkSize` in
truncated `Nat` subtraction; the advance `block = fromBlock - 1` likewise
(JavaScript reaches `-1` where `Nat` floors at `0`; both end the loop). -/
def fetchTransactionsIter (env : ScanEnv) (st : ScanSt) : IterResult :=
  if st.block = 0 then .exit st
  else if env.aborted st.tick then .exit { st with tick := st.tick + 1 }
  else
    let st1 : ScanSt := { st with tick := st.tick + 1 }
    let fromBlock := st1.block + 1 - st1.chunkSize
    let st2 : ScanSt := { st1 with callIdx := st1.callIdx + 1 }
    match env.getLogsCall st1.callIdx fromBlock st1.block with
    | Except.ok logs =>
      match processBatches env (chunkList 20 (rangeTxHashes logs)) st2 with
      | Except.error msg => .fatal msg
      | Except.ok st3 =>
        if st3.foundCreation then .exit st3
        else .next (rangeSuccessStep st3 fromBlock)
    | Except.error e =>
      let st3 : ScanSt := { st2 with
        consecutiveFailures := st2.consecutiveFailures + 1,
        consecutiveSuccesses := 0 }
      if st3.consecutiveFailures ≥ 50 then
        .fatal "Too many consecutive failures (50+). The RPC endpoint might be unstable."
      else .next (rangeFailureStep st3 e)

/-- The whole range loop, fuel-indexed; `none` means the fuel ran out (not a
behaviour of the code), `some (Except.error m)` a thrown fatal error,
`some (Except.ok st)` normal loop exit. -/
def fetchTransactionsLoop (env : ScanEnv) : Nat → ScanSt → Option (Except String ScanSt)
  | 0, _ => none
  | fuel + 1, st =>
    match fetchTransactionsIter env st with
    | .exit s => some (Except.ok s)
    | .fatal m => some (Except.error m)
    | .next s => fetchTransactionsLoop env fuel s

/-- The hashes currently in the transaction store. -/
def storeHashes (st : StatsState) : List String :=
  st.txs.map (fun e => e.tx.hash)

end StorkAnalytics

namespace StorkAnalytics

/-! ## Store-membership lemmas for the scanner -/

/-- The hash that `addTransaction` would add for a fetched transaction, if
any: the transaction exists, passes the to-filter, and its input decodes. -/
def emittedHash (contractAddress : String) (decode : String → Option DecodedInput)
    (tx? : Option RawTx) : Option String :=
  match tx? with
  | none => none
  | some tx =>
    if passesToFilter contractAddress tx then
      match (if tx.data ≠ "" then decode tx.data else none) with
      | none => none
      | some _ => some tx.hash
    else none

theorem txs_processTransactionForStats (st : StatsState) (etx : EnrichedTx) :
    (processTransactionForStats st etx).txs = st.txs := by
  unfold processTransactionForStats
  cases etx.decodedInput.updates <;> rfl

theorem mem_insertTxDesc (x y : EnrichedTx) (l : List EnrichedTx) :
    x ∈ insertTxDesc y l ↔ x = y ∨ x ∈ l := by
  induction l with
  | nil => simp [insertTxDesc]
  | cons z zs ih =>
    unfold insertTxDesc
    split
    · simp
    · simp only [List.mem_cons, ih]
      tauto

theorem mem_sortTxsDesc (x : EnrichedTx) (l : List EnrichedTx) :
    x ∈ sortTxsDesc l ↔ x ∈ l := by
  induction l with
  | nil => simp [sortTxsDesc]
  | cons y ys ih =>
    simp only [sortTxsDesc, List.foldr_cons, mem_insertTxDesc, List.mem_cons]
    rw [← sortTxsDesc, ih]

theorem mem_storeHashes_addTransaction (contractAddress : String)
    (decode : String → Option DecodedInput) (st : StatsState) (tx? : Option RawTx)
    (receipt : Option RawReceipt) (a : String) :
    a ∈ storeHashes (addTransaction contractAddress decode st tx? receipt) ↔
      a ∈ storeHashes st ∨ emittedHash contractAddress decode tx? = some a := by
  cases tx? with
  | none => simp [addTransaction, emittedHash]
  | some tx =>
    unfold addTransaction emittedHash
    dsimp only
    split
    · split
      · simp
      · split
        · next e hfind =>
          have hmem : tx.hash ∈ storeHashes st := by
            have h1 := List.mem_of_find?_eq_some hfind
            have h2 := List.find?_some hfind
            simp only [beq_iff_eq] at h2
            exact h2 ▸ List.mem_map_of_mem _ h1
          simp only [Option.some.injEq]
          constructor
          · exact Or.inl
          · rintro (h | h)
            · exact h
            · exact h ▸ hmem
        · simp only [storeHashes, txs_processTransactionForStats, Option.some.injEq]
          rw [List.mem_map]
          constructor
          · rintro ⟨e, he, hh⟩
            rw [mem_sortTxsDesc, List.mem_cons] at he
            rcases he with he | he
            · exact Or.inr (by rw [← hh, he])
            · exact Or.inl (hh ▸ List.mem_map_of_mem _ he)
          · rintro (h | h)
            · obtain ⟨e, he, hh⟩ := List.mem_map.mp h
              exact ⟨e, (mem_sortTxsDesc _ _).mpr (List.mem_cons_of_mem _ he), hh⟩
            · exact ⟨_, (mem_sortTxsDesc _ _).mpr (List.mem_cons_self _ _), h⟩
    · simp

/-- Feeding one batch of hashes through `addTransaction`. -/
def batchAdd (env : ScanEnv) (s : StatsState) (hs : List String) : StatsState :=
  hs.foldl
    (fun s h => addTransaction env.contractAddress env.decode s (env.getTx h) (env.getReceipt h))
    s

theorem mem_storeHashes_batchAdd (env : ScanEnv) (s : StatsState)
    (hs : List String) (a : String) :
    a ∈ storeHashes (batchAdd env s hs) ↔
      a ∈ storeHashes s ∨
        ∃ h ∈ hs, emittedHash env.contractAddress env.decode (env.getTx h) = some a := by
  induction hs generalizing s with
  | nil => simp [batchAdd]
  | cons h hs ih =>
    simp only [batchAdd, List.foldl_cons] at *
    rw [ih, mem_storeHashes_addTransaction]
    simp only [List.mem_cons]
    constructor
    · rintro ((h1 | h1) | ⟨x, hx, h1⟩)
      · exact Or.inl h1
      · exact Or.inr ⟨h, Or.inl rfl, h1⟩
      · exact Or.inr ⟨x, Or.inr hx, h1⟩
    · rintro (h1 | ⟨x, hx | hx, h1⟩)
      · exact Or.inl (Or.inl h1)
      · exact Or.inl (Or.inr (hx ▸ h1))
      · exact Or.inr ⟨x, hx, h1⟩

theorem batchAdd_append (env : ScanEnv) (s : StatsState) (hs1 hs2 : List String) :
    batchAdd env s (hs1 ++ hs2) = batchAdd env (batchAdd env s hs1) hs2 := by
  simp [batchAdd, List.foldl_append]

end StorkAnalytics

namespace StorkAnalytics

/-! ## Characterisation of a failure-free, creation-free, uncancelled run -/

theorem mem_insertLogDesc (x y : LogEntry) (l : List LogEntry) :
    x ∈ insertLogDesc y l ↔ x = y ∨ x ∈ l := by
  induction l with
  | nil => simp [insertLogDesc]
  | cons z zs ih =>
    unfold insertLogDesc
    split
    · simp
    · simp only [List.mem_cons, ih]
      tauto

theorem mem_sortLogsDesc (x : LogEntry) (l : List LogEntry) :
    x ∈ sortLogsDesc l ↔ x ∈ l := by
  induction l with
  | nil => simp [sortLogsDesc]
  | cons y ys ih =>
    simp only [sortLogsDesc, List.foldr_cons, mem_insertLogDesc, List.mem_cons]
    rw [← sortLogsDesc, ih]

/-- The per-block log assignment of an ideal provider, flattened over a block
range `[f, b]`. -/
def rangeLogsOf (logsAt : Nat → List LogEntry) (f b : Nat) : List LogEntry :=
  (List.range' f (b + 1 - f)).flatMap logsAt

theorem mem_rangeTxHashes (logsAt : Nat → List LogEntry) (f b : Nat)
    (hfb : f ≤ b) (h : String) :
    h ∈ rangeTxHashes (rangeLogsOf logsAt f b) ↔
      (∃ n, f ≤ n ∧ n ≤ b ∧ ∃ l ∈ logsAt n, l.transactionHash = h) ∧ h ≠ "" := by
  unfold rangeTxHashes rangeLogsOf
  rw [mem_jsDedup, List.mem_filter]
  simp only [List.mem_map, mem_sortLogsDesc, List.mem_flatMap, List.mem_range'_1]
  constructor
  · rintro ⟨⟨l, ⟨n, ⟨hn1, hn2⟩, hl⟩, hh⟩, hne⟩
    refine ⟨⟨n, hn1, by omega, l, hl, hh⟩, by simpa using hne⟩
  · rintro ⟨⟨n, hn1, hn2, l, hl, hh⟩, hne⟩
    exact ⟨⟨l, ⟨n, ⟨hn1, by omega⟩, hl⟩, hh⟩, by simpa using hne⟩

theorem runBatch_noFail (env : ScanEnv) (batch : List String) (st : ScanSt)
    (HA : env.aborted st.tick = false) (HB : env.batchFails st.batchTick = false) :
    runBatch env batch st = Except.ok
      { st with
        tick := st.tick + 1, batchTick := st.batchTick + 1,
        fetched := st.fetched ++ batch,
        store := batchAdd env st.store batch,
        foundCreation := st.foundCreation ||
          (batch.map env.getReceipt).any (isCreationReceipt env.contractAddress) } := by
  rw [runBatch, runBatchAux, if_pos (by norm_num), HA, HB]
  simp [batchAdd]

theorem processBatches_noFail (env : ScanEnv) (batches : List (List String))
    (st : ScanSt)
    (HA : ∀ t, env.aborted t = false) (HB : ∀ n, env.batchFails n = false)
    (HC : ∀ h, isCreationReceipt env.contractAddress (env.getReceipt h) = false)
    (hcre : st.foundCreation = false) :
    ∃ st', processBatches env batches st = Except.ok st' ∧
      st'.store = batchAdd env st.store batches.flatten ∧
      st'.foundCreation = false ∧
      st'.block = st.block ∧ st'.chunkSize = st.chunkSize ∧
      st'.callIdx = st.callIdx ∧
      st'.consecutiveSuccesses = st.consecutiveSuccesses ∧
      st'.consecutiveFailures = st.consecutiveFailures := by
  induction batches generalizing st with
  | nil =>
    exact ⟨st, rfl, by simp [batchAdd], hcre, rfl, rfl, rfl, rfl, rfl⟩
  | cons b rest ih =>
    have hcreation : (b.map env.getReceipt).any (isCreationReceipt env.contractAddress) = false := by
      simp only [List.any_eq_false]
      intro r hr
      obtain ⟨h, -, rfl⟩ := List.mem_map.mp hr
      simp [HC h]
    have hb := runBatch_noFail env b st (HA st.tick) (HB st.batchTick)
    rw [hcre, hcreation, Bool.or_false] at hb
    obtain ⟨st', h1, h2, h3, h4, h5, h6, h7, h8⟩ :=
      ih { st with
        tick := st.tick + 1, batchTick := st.batchTick + 1,
        fetched := st.fetched ++ b,
        store := batchAdd env st.store b,
        foundCreation := false } rfl
    refine ⟨st', ?_, ?_, h3, h4, h5, h6, h7, h8⟩
    · unfold processBatches
      rw [hb]
      exact h1
    · rw [h2]
      simp [batchAdd_append]
  
end StorkAnalytics

namespace StorkAnalytics

theorem rangeFailureStep_block (st : ScanSt) (e : RangeErr) :
    (rangeFailureStep st e).block = st.block := by
  unfold rangeFailureStep
  split <;> rfl

theorem rangeFailureStep_store (st : ScanSt) (e : RangeErr) :
    (rangeFailureStep st e).store = st.store := by
  unfold rangeFailureStep
  split <;> rfl

theorem rangeFailureStep_foundCreation (st : ScanSt) (e : RangeErr) :
    (rangeFailureStep st e).foundCreation = st.foundCreation := by
  unfold rangeFailureStep
  split <;> rfl

theorem rangeFailureStep_chunkSize_pos (st : ScanSt) (e : RangeErr)
    (h : 1 ≤ st.chunkSize) : 1 ≤ (rangeFailureStep st e).chunkSize := by
  unfold rangeFailureStep
  split
  · exact h
  · dsimp only
    exact le_trans (by norm_num) (Nat.le_max_left 1000 _)

theorem rangeSuccessStep_block (st : ScanSt) (f : Nat) :
    (rangeSuccessStep st f).block = f - 1 := rfl

theorem rangeSuccessStep_store (st : ScanSt) (f : Nat) :
    (rangeSuccessStep st f).store = st.store := by
  unfold rangeSuccessStep
  dsimp only
  split
  · split <;> rfl
  · rfl

theorem rangeSuccessStep_foundCreation (st : ScanSt) (f : Nat) :
    (rangeSuccessStep st f).foundCreation = st.foundCreation := by
  unfold rangeSuccessStep
  dsimp only
  split
  · split <;> rfl
  · rfl

theorem rangeSuccessStep_chunkSize_pos (st : ScanSt) (f : Nat)
    (h : 1 ≤ st.chunkSize) : 1 ≤ (rangeSuccessStep st f).chunkSize := by
  unfold rangeSuccessStep
  dsimp only
  split
  · split
    · dsimp only
      refine le_min (by norm_num) ?_
      omega
    · exact h
  · exact h

/-- A hash the scanner should have discovered while the cursor is at `lo`:
it is emitted by some log in a block of `(lo, latest]`. -/
def coveredHash (env : ScanEnv) (logsAt : Nat → List LogEntry) (latest lo : Nat)
    (a : String) : Prop :=
  ∃ n, lo < n ∧ n ≤ latest ∧ ∃ l ∈ logsAt n, l.transactionHash ≠ "" ∧
    emittedHash env.contractAddress env.decode (env.getTx l.transactionHash) = some a

theorem coveredHash_split (env : ScanEnv) (logsAt : Nat → List LogEntry)
    (latest f b : Nat) (hfb : f ≤ b) (H0 : logsAt 0 = []) (a : String) :
    coveredHash env logsAt latest (f - 1) a ↔
      coveredHash env logsAt latest b a ∨
        ∃ n, f ≤ n ∧ n ≤ b ∧ n ≤ latest ∧ ∃ l ∈ logsAt n, l.transactionHash ≠ "" ∧
          emittedHash env.contractAddress env.decode (env.getTx l.transactionHash) = some a := by
  unfold coveredHash
  constructor
  · rintro ⟨n, hn1, hn2, hl⟩
    by_cases hc : b < n
    · exact Or.inl ⟨n, hc, hn2, hl⟩
    · exact Or.inr ⟨n, by omega, by omega, hn2, hl⟩
  · rintro (⟨n, hn1, hn2, hl⟩ | ⟨n, hn1, hn2, hn3, hl⟩)
    · exact ⟨n, by omega, hn2, hl⟩
    · rcases Nat.eq_zero_or_pos n with rfl | hp
      · rw [H0] at hl
        simp at hl
      · exact ⟨n, by omega, hn3, hl⟩

theorem fetchLoop_coverage (env : ScanEnv) (logsAt : Nat → List LogEntry)
    (latest : Nat)
    (HA : ∀ t, env.aborted t = false) (HB : ∀ n, env.batchFails n = false)
    (HC : ∀ h, isCreationReceipt env.contractAddress (env.getReceipt h) = false)
    (HL : ∀ k f b logs, env.getLogsCall k f b = Except.ok logs →
      logs = rangeLogsOf logsAt f b)
    (H0 : logsAt 0 = []) :
    ∀ fuel st final, fetchTransactionsLoop env fuel st = some (Except.ok final) →
      st.foundCreation = false → 1 ≤ st.chunkSize → st.block ≤ latest →
      (∀ a, a ∈ storeHashes st.store ↔ coveredHash env logsAt latest st.block a) →
      ∀ a, a ∈ storeHashes final.store ↔ coveredHash env logsAt latest 0 a := by
  intro fuel
  induction fuel with
  | zero =>
    intro st final h
    simp [fetchTransactionsLoop] at h
  | succ fuel ih =>
    intro st final hrun hcre hchunk hble hinv
    rw [fetchTransactionsLoop] at hrun
    by_cases hb0 : st.block = 0
    · rw [fetchTransactionsIter, if_pos hb0] at hrun
      simp only [Option.some.injEq, Except.ok.injEq] at hrun
      subst hrun
      rw [hb0] at hinv
      exact hinv
    · unfold fetchTransactionsIter at hrun
      rw [if_neg hb0, HA] at hrun
      simp only [Bool.false_eq_true, if_false] at hrun
      cases hcall : env.getLogsCall st.callIdx (st.block + 1 - st.chunkSize) st.block with
      | error e =>
        rw [hcall] at hrun
        dsimp only at hrun
        by_cases hf : st.consecutiveFailures + 1 ≥ 50
        · rw [if_pos hf] at hrun
          simp at hrun
        · rw [if_neg hf] at hrun
          dsimp only at hrun
          refine ih _ final hrun ?_ ?_ ?_ ?_
          · rw [rangeFailureStep_foundCreation]
            exact hcre
          · exact rangeFailureStep_chunkSize_pos _ e hchunk
          · rw [rangeFailureStep_block]
            exact hble
          · intro a
            rw [rangeFailureStep_store, rangeFailureStep_block]
            exact hinv a
      | ok logs =>
        rw [hcall] at hrun
        have hlogs := HL _ _ _ _ hcall
        subst hlogs
        dsimp only at hrun
        obtain ⟨st3, h1, h2, h3, h4, h5, h6, h7, h8⟩ :=
          processBatches_noFail env
            (chunkList 20 (rangeTxHashes (rangeLogsOf logsAt (st.block + 1 - st.chunkSize) st.block)))
            { st with tick := st.tick + 1, callIdx := st.callIdx + 1 }
            HA HB HC hcre
        rw [h1] at hrun
        dsimp only at hrun
        rw [if_neg (by rw [h3]; exact Bool.false_ne_true)] at hrun
        have hfrom_le : st.block + 1 - st.chunkSize ≤ st.block := by omega
        refine ih _ final hrun ?_ ?_ ?_ ?_
        · rw [rangeSuccessStep_foundCreation]
          exact h3
        · apply rangeSuccessStep_chunkSize_pos
          rw [h5]
          exact hchunk
        · rw [rangeSuccessStep_block]
          omega
        · intro a
          rw [rangeSuccessStep_store, rangeSuccessStep_block, h2, chunkList_flatten]
          rw [mem_storeHashes_batchAdd]
          have hst2store : ({ st with tick := st.tick + 1, callIdx := st.callIdx + 1 } : ScanSt).store = st.store := rfl
          rw [hst2store, hinv a,
            coveredHash_split env logsAt latest (st.block + 1 - st.chunkSize) st.block hfrom_le H0 a]
          constructor
          · rintro (h | ⟨h, hmem, hemit⟩)
            · exact Or.inl h
            · rw [mem_rangeTxHashes logsAt _ _ hfrom_le] at hmem
              obtain ⟨⟨n, hn1, hn2, l, hl, hh⟩, hne⟩ := hmem
              exact Or.inr ⟨n, hn1, hn2, by omega, l, hl, by rw [hh]; exact hne, by rw [hh]; exact hemit⟩
          · rintro (h | ⟨n, hn1, hn2, hn3, l, hl, hne, hemit⟩)
            · exact Or.inl h
            · refine Or.inr ⟨l.transactionHash, ?_, hemit⟩
              rw [mem_rangeTxHashes logsAt _ _ hfrom_le]
              exact ⟨⟨n, hn1, hn2, l, hl, rfl⟩, hne⟩

end StorkAnalytics

namespace StorkAnalytics

/-- C4 (amended): the cursor never advances past a failed range — on a
range-fetch failure the upper bound `block` is left unchanged (after a
non-rate-limit failure the chunk size shrinks, so the retried range's lower
bound may move up, but no block below the cursor is skipped); and for any
two failure schedules over the same per-block logs — in particular a
provider that fails a range once and then succeeds versus one that succeeds
immediately — two completed scans discover the same set of transaction
hashes, provided the contract has no logs in the genesis block 0 (block 0 is
fetched only when `fromBlock` lands exactly on it, which depends on the
failure schedule; see `C4_counterexample`). -/
theorem C4_cursor_never_advances_and_sets_agree (env1 env2 : ScanEnv)
    (logsAt : Nat → List LogEntry) (latest fuel1 fuel2 : Nat) (s1 s2 : ScanSt)
    (Haddr : env1.contractAddress = env2.contractAddress)
    (Hdec : env1.decode = env2.decode) (Htx : env1.getTx = env2.getTx)
    (HA1 : ∀ t, env1.aborted t = false) (HB1 : ∀ n, env1.batchFails n = false)
    (HC1 : ∀ h, isCreationReceipt env1.contractAddress (env1.getReceipt h) = false)
    (HL1 : ∀ k f b logs, env1.getLogsCall k f b = Except.ok logs →
      logs = rangeLogsOf logsAt f b)
    (HA2 : ∀ t, env2.aborted t = false) (HB2 : ∀ n, env2.batchFails n = false)
    (HC2 : ∀ h, isCreationReceipt env2.contractAddress (env2.getReceipt h) = false)
    (HL2 : ∀ k f b logs, env2.getLogsCall k f b = Except.ok logs →
      logs = rangeLogsOf logsAt f b)
    (H0 : logsAt 0 = [])
    (hrun1 : fetchTransactionsLoop env1 fuel1 (initScanSt latest) = some (Except.ok s1))
    (hrun2 : fetchTransactionsLoop env2 fuel2 (initScanSt latest) = some (Except.ok s2)) :
    (∀ st e, (rangeFailureStep st e).block = st.block) ∧
    (∀ a, a ∈ storeHashes s1.store ↔ a ∈ storeHashes s2.store) := by
  refine ⟨rangeFailureStep_block, ?_⟩
  have hinit : ∀ (env : ScanEnv) a,
      a ∈ storeHashes (initScanSt latest).store ↔
        coveredHash env logsAt latest (initScanSt latest).block a := by
    intro env a
    simp only [initScanSt, initStats, storeHashes, coveredHash, List.map_nil,
      List.not_mem_nil, false_iff]
    rintro ⟨n, hn1, hn2, -⟩
    omega
  have hcov1 := fetchLoop_coverage env1 logsAt latest HA1 HB1 HC1 HL1 H0
    fuel1 (initScanSt latest) s1 hrun1 rfl (by norm_num [initScanSt]) le_rfl (hinit env1)
  have hcov2 := fetchLoop_coverage env2 logsAt latest HA2 HB2 HC2 HL2 H0
    fuel2 (initScanSt latest) s2 hrun2 rfl (by norm_num [initScanSt]) le_rfl (hinit env2)
  intro a
  rw [hcov1 a, hcov2 a]
  unfold coveredHash
  rw [Haddr, Hdec, Htx]

theorem rangeLogsOf_zeroOnly (L : List LogEntry) (f b : Nat) :
    rangeLogsOf (fun n => if n = 0 then L else []) f b =
      if f = 0 ∧ 0 < b + 1 - f then L else [] := by
  unfold rangeLogsOf
  have hnil : ∀ (l : List Nat), (∀ n ∈ l, n ≠ 0) →
      l.flatMap (fun n => if n = 0 then L else []) = [] := by
    intro l h
    induction l with
    | nil => rfl
    | cons x xs ih =>
      have hx := h x (List.mem_cons_self x xs)
      simp only [List.flatMap_cons, if_neg hx, List.nil_append]
      exact ih (fun n hn => h n (List.mem_cons_of_mem _ hn))
  by_cases hf : f = 0
  · subst hf
    cases hb : b + 1 with
    | zero => omega
    | succ m =>
      simp only [Nat.sub_zero]
      rw [List.range'_succ]
      simp only [List.flatMap_cons, if_pos rfl]
      rw [hnil (List.range' 1 m) (by intro n hn; have := List.mem_range'_1.mp hn; omega)]
      simp
  · rw [hnil (List.range' f (b + 1 - f))
      (by intro n hn; have := List.mem_range'_1.mp hn; omega)]
    simp [hf]

end StorkAnalytics

namespace StorkAnalytics

/-- Does a loop result exist normally (`some (Except.ok _)`)? -/
def isOkRun (x : Option (Except String ScanSt)) : Bool :=
  match x with
  | some (Except.ok _) => true
  | _ => false

theorem exists_ok_of_isOkRun (x : Option (Except String ScanSt))
    (h : isOkRun x = true) : ∃ s, x = some (Except.ok s) := by
  match x with
  | some (Except.ok s) => exact ⟨s, rfl⟩
  | some (Except.error m) => simp [isOkRun] at h
  | none => simp [isOkRun] at h

/-- Observation of a loop result: whether it ended normally with the given
hash in the transaction store. -/
def memObs (a : String) (x : Option (Except String ScanSt)) : Option Bool :=
  match x with
  | some (Except.ok s) => some (decide (a ∈ storeHashes s.store))
  | _ => none

theorem memObs_true (a : String) (x : Option (Except String ScanSt))
    (h : memObs a x = some true) :
    ∃ s, x = some (Except.ok s) ∧ a ∈ storeHashes s.store := by
  match x with
  | some (Except.ok s) =>
    refine ⟨s, rfl, ?_⟩
    simp only [memObs, Option.some.injEq] at h
    exact of_decide_eq_true h
  | some (Except.error m) => simp [memObs] at h
  | none => simp [memObs] at h

theorem memObs_false (a : String) (x : Option (Except String ScanSt))
    (h : memObs a x = some false) :
    ∃ s, x = some (Except.ok s) ∧ ¬ a ∈ storeHashes s.store := by
  match x with
  | some (Except.ok s) =>
    refine ⟨s, rfl, ?_⟩
    simp only [memObs, Option.some.injEq] at h
    exact of_decide_eq_false h
  | some (Except.error m) => simp [memObs] at h
  | none => simp [memObs] at h

def envW : ScanEnv :=
  { contractAddress := "0xc", decode := fun _ => none,
    getLogsCall := fun _ _ _ => Except.ok [],
    getTx := fun _ => none, getReceipt := fun _ => none,
    batchFails := fun _ => false, aborted := fun _ => false }

theorem envW_logs_consistent : ∀ k f b logs,
    envW.getLogsCall k f b = Except.ok logs → logs = rangeLogsOf (fun _ => []) f b := by
  intro k f b logs h
  simp only [envW] at h
  cases h
  unfold rangeLogsOf
  generalize List.range' f (b + 1 - f) = l
  induction l with
  | nil => rfl
  | cons x xs _ih => simp

theorem C4_cursor_never_advances_and_sets_agree_witness :
    ∃ s1 s2, fetchTransactionsLoop envW 3 (initScanSt 1) = some (Except.ok s1) ∧
      fetchTransactionsLoop envW 3 (initScanSt 1) = some (Except.ok s2) ∧
      ((∀ st e, (rangeFailureStep st e).block = st.block) ∧
        (∀ a, a ∈ storeHashes s1.store ↔ a ∈ storeHashes s2.store)) := by
  obtain ⟨s1, h1⟩ := exists_ok_of_isOkRun (fetchTransactionsLoop envW 3 (initScanSt 1))
    (by decide)
  exact ⟨s1, s1, h1, h1,
    C4_cursor_never_advances_and_sets_agree envW envW (fun _ => []) 1 3 3 s1 s1
      rfl rfl rfl (fun _ => rfl) (fun _ => rfl) (fun _ => rfl) envW_logs_consistent
      (fun _ => rfl) (fun _ => rfl) (fun _ => rfl) envW_logs_consistent
      rfl h1 h1⟩

def ceLog0 : LogEntry := { transactionHash := "0xh0", blockNumber := 0 }

def ceLogsAt : Nat → List LogEntry := fun n => if n = 0 then [ceLog0] else []

def ceTx : RawTx :=
  { hash := "0xh0", sender := "0xd", toAddr := none, blockNumber := 0, data := "upd" }

def ceDecode : String → Option DecodedInput :=
  fun s => if s = "upd" then some { updates := some [] } else none

/-- The provider that succeeds immediately, backed by `ceLogsAt` (its only
log is the transaction `0xh0` in the genesis block 0). -/
def ceEnvB : ScanEnv :=
  { contractAddress := "0xc", decode := ceDecode,
    getLogsCall := fun _ f _ => Except.ok (if f = 0 then [ceLog0] else []),
    getTx := fun h => if h = "0xh0" then some ceTx else none,
    getReceipt := fun _ => none,
    batchFails := fun _ => false, aborted := fun _ => false }

/-- The provider that fails its first range fetch (range R =
`[100001, 200000]`, classified non-rate-limit) once and then succeeds,
backed by the same `ceLogsAt`. -/
def ceEnvA : ScanEnv :=
  { ceEnvB with
    getLogsCall := fun k f _ =>
      if k = 0 then Except.error { rateLimit := false }
      else Except.ok (if f = 0 then [ceLog0] else []) }

theorem ceIdeal_eq (f b : Nat) (hfb : f ≤ b) :
    (if f = 0 then [ceLog0] else []) = rangeLogsOf ceLogsAt f b := by
  show (if f = 0 then [ceLog0] else []) =
    rangeLogsOf (fun n => if n = 0 then [ceLog0] else []) f b
  rw [rangeLogsOf_zeroOnly]
  by_cases hf : f = 0
  · subst hf
    rw [if_pos rfl, if_pos ⟨rfl, by omega⟩]
  · rw [if_neg hf, if_neg (by tauto)]

/-- C4 counterexample: with the tip at block 200000 and the contract's only
log (and transaction `0xh0`) in the genesis block 0, the scan against the
provider that fails the first range `[100001, 200000]` once and then
succeeds discovers `0xh0` (its shrunken chunks land `fromBlock` exactly on
0), while the scan against the provider that succeeds immediately never
fetches block 0 (its chunks land `fromBlock` on 1) and misses `0xh0` — so
the two final sets of discovered transactions differ, refuting the claim as
stated. -/
theorem C4_counterexample :
    (∀ k f b, f ≤ b → ceEnvB.getLogsCall k f b = Except.ok (rangeLogsOf ceLogsAt f b)) ∧
    ceEnvA.getLogsCall 0 100001 200000 = Except.error { rateLimit := false } ∧
    (initScanSt 200000).block + 1 - (initScanSt 200000).chunkSize = 100001 ∧
    (∀ k f b, k ≠ 0 → f ≤ b →
      ceEnvA.getLogsCall k f b = Except.ok (rangeLogsOf ceLogsAt f b)) ∧
    ceLogsAt 0 ≠ [] ∧
    (∃ sA sB, fetchTransactionsLoop ceEnvA 10 (initScanSt 200000) = some (Except.ok sA) ∧
      fetchTransactionsLoop ceEnvB 10 (initScanSt 200000) = some (Except.ok sB) ∧
      "0xh0" ∈ storeHashes sA.store ∧ ¬ "0xh0" ∈ storeHashes sB.store) := by
  refine ⟨?_, rfl, rfl, ?_, by decide, ?_⟩
  · intro k f b hfb
    show Except.ok (if f = 0 then [ceLog0] else []) = _
    rw [ceIdeal_eq f b hfb]
  · intro k f b hk hfb
    show (if k = 0 then (Except.error { rateLimit := false } : Except RangeErr (List LogEntry))
      else Except.ok (if f = 0 then [ceLog0] else [])) =
        Except.ok (rangeLogsOf ceLogsAt f b)
    rw [if_neg hk, ceIdeal_eq f b hfb]
  · obtain ⟨sA, hA, hmemA⟩ :=
      memObs_true "0xh0" (fetchTransactionsLoop ceEnvA 10 (initScanSt 200000)) (by decide)
    obtain ⟨sB, hB, hmemB⟩ :=
      memObs_false "0xh0" (fetchTransactionsLoop ceEnvB 10 (initScanSt 200000)) (by decide)
    exact ⟨sA, sB, hA, hB, hmemA, hmemB⟩

end StorkAnalytics

namespace StorkAnalytics

/-! ## C5 / C6 / C7: termination, creation handling, batch failure handling -/

/-- C5: the backward loop terminates at the claimed points.  First, with the
latest block 0 the `for (block = 0; block > 0; ...)` loop performs no
iterations and ends without error — the final state is exactly the initial
one (in particular `callIdx = 0`: no range was ever fetched).  Second, when
a batch's receipts identify contract creation, the remaining batches of the
range are skipped (`processBatches` of `b :: rest` equals that of `[b]`
alone, and `rest`'s hashes are never fetched).  Third, once a range's batch
processing ends with `foundCreation` set, the range loop exits immediately
with that very state — no further range is requested. -/
theorem C5_loop_terminates_on_genesis_and_creation :
    (∀ (env : ScanEnv) (fuel : Nat),
      fetchTransactionsLoop env (fuel + 1) (initScanSt 0) =
        some (Except.ok (initScanSt 0))) ∧
    (∀ (env : ScanEnv) (b : List String) (rest : List (List String)) (st : ScanSt),
      env.aborted st.tick = false → env.batchFails st.batchTick = false →
      (b.map env.getReceipt).any (isCreationReceipt env.contractAddress) = true →
      processBatches env (b :: rest) st = processBatches env [b] st ∧
      ∃ st', processBatches env (b :: rest) st = Except.ok st' ∧
        st'.foundCreation = true ∧ st'.fetched = st.fetched ++ b) ∧
    (∀ (env : ScanEnv) (fuel : Nat) (st st' : ScanSt) (logs : List LogEntry),
      st.block ≠ 0 → env.aborted st.tick = false →
      env.getLogsCall st.callIdx (st.block + 1 - st.chunkSize) st.block = Except.ok logs →
      processBatches env (chunkList 20 (rangeTxHashes logs))
        { st with tick := st.tick + 1, callIdx := st.callIdx + 1 } = Except.ok st' →
      st'.foundCreation = true →
      fetchTransactionsLoop env (fuel + 1) st = some (Except.ok st')) := by
  refine ⟨fun env fuel => rfl, ?_, ?_⟩
  · intro env b rest st hA hB hcre
    have hrb := runBatch_noFail env b st hA hB
    rw [hcre, Bool.or_true] at hrb
    have hres : processBatches env (b :: rest) st = Except.ok
        { st with
          tick := st.tick + 1, batchTick := st.batchTick + 1,
          fetched := st.fetched ++ b, store := batchAdd env st.store b,
          foundCreation := true } := by
      unfold processBatches
      rw [hrb]
      exact rfl
    have hres1 : processBatches env [b] st = Except.ok
        { st with
          tick := st.tick + 1, batchTick := st.batchTick + 1,
          fetched := st.fetched ++ b, store := batchAdd env st.store b,
          foundCreation := true } := by
      unfold processBatches
      rw [hrb]
      exact rfl
    exact ⟨hres.trans hres1.symm, _, hres, rfl, rfl⟩
  · intro env fuel st st' logs hb0 hA hcall hpb hfc
    rw [fetchTransactionsLoop]
    unfold fetchTransactionsIter
    rw [if_neg hb0, hA]
    simp only [Bool.false_eq_true, if_false]
    rw [hcall]
    dsimp only
    rw [hpb]
    dsimp only
    rw [if_pos hfc]

/-- The creation transaction of the C6 scenario: `to` is null and `data` is
the deployment bytecode, which does not decode as an update call. -/
def creationTx : RawTx :=
  { hash := "0xcr", sender := "0xd", toAddr := none, blockNumber := 1,
    data := "bytecode" }

/-- Provider for the C5 witness and the C6 run: one log whose transaction is
the contract-creation transaction (receipt `contractAddress = "0xC"`,
matching the target `"0xc"` case-insensitively). -/
def envCr : ScanEnv :=
  { contractAddress := "0xc", decode := ceDecode,
    getLogsCall := fun _ _ _ => Except.ok [{ transactionHash := "0xcr", blockNumber := 1 }],
    getTx := fun h => if h = "0xcr" then some creationTx else none,
    getReceipt := fun h =>
      if h = "0xcr" then some { contractAddress := some "0xC", gasUsed := 21000 } else none,
    batchFails := fun _ => false, aborted := fun _ => false }

/-- Observation used to extract the batch-processing result of the C5
witness run. -/
def pbObs (x : Except String ScanSt) : Option Bool :=
  match x with
  | Except.ok s => some s.foundCreation
  | Except.error _ => none

theorem pbObs_spec (x : Except String ScanSt) (b : Bool) (h : pbObs x = some b) :
    ∃ s, x = Except.ok s ∧ s.foundCreation = b := by
  match x with
  | Except.ok s =>
    refine ⟨s, rfl, ?_⟩
    simp only [pbObs, Option.some.injEq] at h
    exact h
  | Except.error m => simp [pbObs] at h

theorem C5_loop_terminates_on_genesis_and_creation_witness :
    fetchTransactionsLoop envW 1 (initScanSt 0) = some (Except.ok (initScanSt 0)) ∧
    (processBatches envCr [["0xcr"], ["0xother"]] (initScanSt 5) =
        processBatches envCr [["0xcr"]] (initScanSt 5) ∧
      ∃ st', processBatches envCr [["0xcr"], ["0xother"]] (initScanSt 5) = Except.ok st' ∧
        st'.foundCreation = true ∧ st'.fetched = (initScanSt 5).fetched ++ ["0xcr"]) ∧
    (∃ st', fetchTransactionsLoop envCr 1 (initScanSt 5) = some (Except.ok st') ∧
      st'.foundCreation = true) := by
  refine ⟨C5_loop_terminates_on_genesis_and_creation.1 envW 0, ?_, ?_⟩
  · exact C5_loop_terminates_on_genesis_and_creation.2.1 envCr ["0xcr"] [["0xother"]]
      (initScanSt 5) rfl rfl (by decide)
  · obtain ⟨st', hpb, hfc⟩ := pbObs_spec
      (processBatches envCr
        (chunkList 20 (rangeTxHashes [{ transactionHash := "0xcr", blockNumber := 1 }]))
        { initScanSt 5 with tick := (initScanSt 5).tick + 1, callIdx := (initScanSt 5).callIdx + 1 })
      true (by decide)
    exact ⟨st', C5_loop_terminates_on_genesis_and_creation.2.2 envCr 0 (initScanSt 5) st'
      [{ transactionHash := "0xcr", blockNumber := 1 }] (by decide) rfl rfl hpb hfc, hfc⟩

/-- Observation of a completed run used by the concrete C6/C7 theorems. -/
def runObs (x : Option (Except String ScanSt)) : Option (Bool × Nat × Nat × List String) :=
  match x with
  | some (Except.ok s) => some (s.foundCreation, s.callIdx, s.batchTick, storeHashes s.store)
  | _ => none

theorem runObs_spec (x : Option (Except String ScanSt))
    (p : Bool × Nat × Nat × List String) (h : runObs x = some p) :
    ∃ s, x = some (Except.ok s) ∧ s.foundCreation = p.1 ∧ s.callIdx = p.2.1 ∧
      s.batchTick = p.2.2.1 ∧ storeHashes s.store = p.2.2.2 := by
  match x with
  | some (Except.ok s) =>
    refine ⟨s, rfl, ?_⟩
    simp only [runObs, Option.some.injEq] at h
    rw [← h]
    exact ⟨rfl, rfl, rfl, rfl⟩
  | some (Except.error m) => simp [runObs] at h
  | none => simp [runObs] at h

/-- C6: the scan of the `envCr` provider observes the creation receipt and
stops (`foundCreation = true` after a single range fetch), but the
contract-creation transaction is NOT emitted into the transaction store:
its input is deployment bytecode, `decodeInput` yields null on it, and
`addTransaction` only stores transactions whose input decodes as an
`updateTemporalNumericValuesV1` call — contradicting both the claim and the
source's own comment `// Only keep creation and incoming transactions`. -/
theorem C6_creation_transaction_not_emitted :
    ceDecode creationTx.data = none ∧
    isCreationReceipt envCr.contractAddress (envCr.getReceipt "0xcr") = true ∧
    ∃ s, fetchTransactionsLoop envCr 2 (initScanSt 5) = some (Except.ok s) ∧
      s.foundCreation = true ∧ s.callIdx = 1 ∧ storeHashes s.store = [] := by
  refine ⟨rfl, by decide, ?_⟩
  obtain ⟨s, h1, h2, h3, -, h5⟩ :=
    runObs_spec (fetchTransactionsLoop envCr 2 (initScanSt 5)) (true, 1, 1, []) (by decide)
  exact ⟨s, h1, h2, h3, h5⟩

theorem runBatchAux_batchTick_le (env : ScanEnv) (batch : List String) :
    ∀ (fuel retries bcf : Nat) (st s : ScanSt),
      runBatchAux env batch fuel retries bcf st = Except.ok s →
      s.batchTick ≤ st.batchTick + fuel := by
  intro fuel
  induction fuel with
  | zero =>
    intro retries bcf st s h
    rw [runBatchAux] at h
    cases h
    exact Nat.le_add_right _ _
  | succ fuel ih =>
    intro retries bcf st s h
    rw [runBatchAux] at h
    by_cases hr3 : retries < 3
    · rw [if_pos hr3] at h
      by_cases hab : env.aborted st.tick = true
      · rw [if_pos hab] at h
        cases h
        simp
      · rw [if_neg hab] at h
        by_cases hbf : env.batchFails st.batchTick = true
        · rw [if_pos hbf] at h
          by_cases h50 : bcf + 1 ≥ 50
          · rw [if_pos h50] at h
            cases h
          · rw [if_neg h50] at h
            by_cases hr1 : retries + 1 < 3
            · rw [if_pos hr1] at h
              have h2 := ih _ _ _ _ h
              simp at h2
              omega
            · rw [if_neg hr1] at h
              cases h
              simp
        · rw [if_neg hbf] at h
          cases h
          simp
    · rw [if_neg hr3] at h
      cases h
      omega

/-- Provider for the C7 run: every range fetch succeeds and reports one log
(one transaction batch), and every transaction-batch fetch attempt fails.
With the tip at block 6,200,000 the backward walk performs 18 ranges, so the
run accumulates 18 × 3 = 54 consecutive failed batch attempts with no
intervening success. -/
def envBF : ScanEnv :=
  { contractAddress := "0xc", decode := fun _ => none,
    getLogsCall := fun _ _ _ => Except.ok [{ transactionHash := "0xt", blockNumber := 1 }],
    getTx := fun _ => none, getReceipt := fun _ => none,
    batchFails := fun _ => true, aborted := fun _ => false }

set_option maxRecDepth 100000 in
/-- C7: a batch is attempted at most 3 times (first conjunct: a completed
batch advances the attempt counter by at most 3, so the batch-local
`batchConsecutiveFailures` counter can never reach the fatal ceiling of 50),
and against the `envBF` provider, whose batches fail every attempt, the run
accumulates 54 consecutive failed batch attempts, silently drops every
batch, and still completes without any error — the claimed fatal abort
after 50 consecutive batch failures never happens. -/
theorem C7_batch_failures_never_fatal :
    (∀ (env : ScanEnv) (batch : List String) (st s : ScanSt),
      runBatch env batch st = Except.ok s → s.batchTick ≤ st.batchTick + 3) ∧
    (∀ n, envBF.batchFails n = true) ∧
    ∃ s, fetchTransactionsLoop envBF 20 (initScanSt 6200000) = some (Except.ok s) ∧
      s.batchTick = 54 ∧ storeHashes s.store = [] := by
  refine ⟨?_, fun n => rfl, ?_⟩
  · intro env batch st s h
    exact runBatchAux_batchTick_le env batch 3 0 0 st s h
  · obtain ⟨s, h1, -, -, h4, h5⟩ :=
      runObs_spec (fetchTransactionsLoop envBF 20 (initScanSt 6200000))
        (false, 18, 54, []) (by decide)
    exact ⟨s, h1, h4, h5⟩

theorem C7_batch_failures_never_fatal_witness :
    ∃ s, runBatch envW ["h"] (initScanSt 1) = Except.ok s ∧
      s.batchTick ≤ (initScanSt 1).batchTick + 3 := by
  have h := runBatch_noFail envW ["h"] (initScanSt 1) rfl rfl
  exact ⟨_, h, C7_batch_failures_never_fatal.1 envW ["h"] (initScanSt 1) _ h⟩

end StorkAnalytics

namespace StorkAnalytics

/-! ## The asset value scanner (`scanValues`, lines 1318-1512)

The contract read `getTemporalNumericValueUnsafeV1` is abstracted by
`read asset attempt`: attempt 0 is the first pass, attempt `retryCount + 1`
the retry-phase attempts.  A read either returns a value, reverts with the
`NotFound` message (the `includes('NotFound')` heuristic of lines
1380-1382), or throws a transient error.  `aborted` is the cancellation
flag as a function of a poll counter, as in the scanner model. -/

inductive ReadResult where
  | ok (quantizedValue timestampNs : ℚ)
  | notFound
  | err
deriving DecidableEq, Repr

structure ValEnv where
  read : String → Nat → ReadResult
  aborted : Nat → Bool

/-- One entry of the `assetValues` map.  The source writes records without a
`failed` key except when marking retry exhaustion; the typed interface
declares `failed?: boolean`, so a missing key is modelled as `false`. -/
structure ValRecord where
  value : ℚ
  timestamp : ℚ
  found : Bool
  failed : Bool
deriving DecidableEq, Repr

/-- State of one `scanValues` run: the `assetValues` map, the `failedScans`
retry queue, and instrumentation (`sleeps`: awaited delays; `calls`: every
issued contract read as (asset, attempt); `tick`: poll counter). -/
structure ValSt where
  values : List (String × ValRecord)
  failedScans : List (String × String)
  sleeps : List ℚ
  calls : List (String × Nat)
  tick : Nat
deriving DecidableEq, Repr

def initValSt : ValSt :=
  { values := [], failedScans := [], sleeps := [], calls := [], tick := 0 }

/-- First-pass read of one asset (lines 1367-1399): a value means
`found: true`; a `NotFound` revert is a valid terminal
`{value: 0, timestamp: 0, found: false}`; any other error queues the asset
for the retry phase and records the same
`{value: 0, timestamp: 0, found: false}` — indistinguishable from the
not-found record until the retry phase revisits it. -/
def firstPassRead (env : ValEnv) (st : ValSt) (asset : String × String) :
    ValSt × (String × ValRecord) :=
  let st := { st with calls := st.calls ++ [(asset.1, 0)] }
  match env.read asset.1 0 with
  | .ok q t =>
    let r : ValRecord :=
      { value := q / 1000000000000000000, timestamp := t / 1000000,
        found := true, failed := false }
    (st, (asset.1, r))
  | .notFound =>
    (st, (asset.1, { value := 0, timestamp := 0, found := false, failed := false }))
  | .err =>
    ({ st with failedScans := st.failedScans ++ [asset] },
      (asset.1, { value := 0, timestamp := 0, found := false, failed := false }))

/-- One batch of the first pass: the `Promise.all` over the batch followed by
the single `assetValues.update` merging the batch results (lines
1367-1411), then the 100 ms inter-batch pause (line 1417). -/
def firstPassBatch (env : ValEnv) (batch : List (String × String)) (st : ValSt) : ValSt :=
  let p := batch.foldl
    (fun (p : ValSt × List (String × ValRecord)) asset =>
      let q := firstPassRead env p.1 asset
      (q.1, p.2 ++ [q.2]))
    (st, ([] : List (String × ValRecord)))
  let st1 := p.1
  let st2 := { st1 with values := p.2.foldl (fun m (r : String × ValRecord) => mapSet m r.1 r.2) st1.values }
  { st2 with sleeps := st2.sleeps ++ [100] }

/-- The `for (const batch of batches)` loop of the first pass, with the
cancellation poll before each batch (lines 1360-1365). -/
def firstPass (env : ValEnv) : List (List (String × String)) → ValSt → ValSt
  | [], st => st
  | batch :: rest, st =>
    if env.aborted st.tick then { st with tick := st.tick + 1 }
    else firstPass env rest (firstPassBatch env batch { st with tick := st.tick + 1 })

/-- The retry loop for one failed asset (lines 1432-1501):
`while (retryCount < MAX_RETRIES && !success && !aborted)`.  A successful
read or a `NotFound` revert is terminal; any other error bumps
`retryCount`, sleeps 1 s before the next attempt (line 1483, guarded by a
further cancellation poll), and after the 5th failure marks the asset
`{value: 0, timestamp: 0, found: false, failed: true}`.  The structural
`fuel` equals `5 - retryCount` and is never exhausted. -/
def retryAssetAux (env : ValEnv) (hash name : String) :
    Nat → Nat → ValSt → ValSt
  | 0, _, st => st
  | fuel + 1, retryCount, st =>
    if retryCount < 5 then
      if env.aborted st.tick then { st with tick := st.tick + 1 }
      else
        let st1 := { st with
          tick := st.tick + 1, calls := st.calls ++ [(hash, retryCount + 1)] }
        match env.read hash (retryCount + 1) with
        | .ok q t =>
          let r : ValRecord :=
            { value := q / 1000000000000000000, timestamp := t / 1000000,
              found := true, failed := false }
          { st1 with values := mapSet st1.values hash r }
        | .notFound =>
          let r : ValRecord :=
            { value := 0, timestamp := 0, found := false, failed := false }
          { st1 with values := mapSet st1.values hash r }
        | .err =>
          if retryCount + 1 < 5 then
            if env.aborted st1.tick then
              retryAssetAux env hash name fuel (retryCount + 1) { st1 with tick := st1.tick + 1 }
            else
              let st2 := { st1 with tick := st1.tick + 1, sleeps := st1.sleeps ++ [1000] }
              retryAssetAux env hash name fuel (retryCount + 1) st2
          else
            let r : ValRecord :=
              { value := 0, timestamp := 0, found := false, failed := true }
            retryAssetAux env hash name fuel (retryCount + 1)
              { st1 with values := mapSet st1.values hash r }
    else st

def retryAsset (env : ValEnv) (hash name : String) (st : ValSt) : ValSt :=
  retryAssetAux env hash name 5 0 st

/-- The `for (const [hash, name] of failedScans)` retry phase, with the
cancellation poll before each asset (lines 1425-1430). -/
def retryPhase (env : ValEnv) : List (String × String) → ValSt → ValSt
  | [], st => st
  | (hash, name) :: rest, st =>
    if env.aborted st.tick then { st with tick := st.tick + 1 }
    else retryPhase env rest (retryAsset env hash name { st with tick := st.tick + 1 })

/-- `scanValues`: clear the value map, process the assets in batches of 5,
then — if any scans failed and the run is not cancelled (line 1421) — run
the retry phase over the queued assets. -/
def scanValues (env : ValEnv) (assets : List (String × String)) : ValSt :=
  let st1 := firstPass env (chunkList 5 assets) initValSt
  if st1.failedScans ≠ [] then
    if env.aborted st1.tick then { st1 with tick := st1.tick + 1 }
    else retryPhase env st1.failedScans { st1 with tick := st1.tick + 1 }
  else st1

end StorkAnalytics

namespace StorkAnalytics

/-- C8: for every pair of distinct assets whose reads return, respectively, a
`NotFound` revert and a persistently failing transient error, the final
records are distinct: the first ends `{found: false, failed: false}` after a
single read (it is never queued for retry), and the second — queued by the
first pass, then retried 5 times with a fixed 1 s sleep between attempts —
ends `{found: false, failed: true}`. -/
theorem C8_not_found_vs_retries_exhausted (hA hB nA nB : String) (hne : hA ≠ hB) :
    (scanValues
        { read := fun h _ => if h = hA then ReadResult.notFound else ReadResult.err,
          aborted := fun _ => false } [(hA, nA), (hB, nB)]).values =
      [(hA, { value := 0, timestamp := 0, found := false, failed := false }),
       (hB, { value := 0, timestamp := 0, found := false, failed := true })] ∧
    (scanValues
        { read := fun h _ => if h = hA then ReadResult.notFound else ReadResult.err,
          aborted := fun _ => false } [(hA, nA), (hB, nB)]).calls =
      [(hA, 0), (hB, 0), (hB, 1), (hB, 2), (hB, 3), (hB, 4), (hB, 5)] ∧
    (scanValues
        { read := fun h _ => if h = hA then ReadResult.notFound else ReadResult.err,
          aborted := fun _ => false } [(hA, nA), (hB, nB)]).failedScans = [(hB, nB)] ∧
    (scanValues
        { read := fun h _ => if h = hA then ReadResult.notFound else ReadResult.err,
          aborted := fun _ => false } [(hA, nA), (hB, nB)]).sleeps =
      [100, 1000, 1000, 1000, 1000] := by
  have hne' : hB ≠ hA := Ne.symm hne
  refine ⟨?_, ?_, ?_, ?_⟩ <;>
    simp [scanValues, chunkList, chunkListFuel, firstPass, firstPassBatch,
      firstPassRead, retryPhase, retryAsset, retryAssetAux, initValSt,
      mapSet, hne, hne']

theorem C8_not_found_vs_retries_exhausted_witness :
    (scanValues
        { read := fun h _ => if h = "a" then ReadResult.notFound else ReadResult.err,
          aborted := fun _ => false } [("a", "A"), ("b", "B")]).values =
      [("a", { value := 0, timestamp := 0, found := false, failed := false }),
       ("b", { value := 0, timestamp := 0, found := false, failed := true })] ∧
    (scanValues
        { read := fun h _ => if h = "a" then ReadResult.notFound else ReadResult.err,
          aborted := fun _ => false } [("a", "A"), ("b", "B")]).calls =
      [("a", 0), ("b", 0), ("b", 1), ("b", 2), ("b", 3), ("b", 4), ("b", 5)] ∧
    (scanValues
        { read := fun h _ => if h = "a" then ReadResult.notFound else ReadResult.err,
          aborted := fun _ => false } [("a", "A"), ("b", "B")]).failedScans = [("b", "B")] ∧
    (scanValues
        { read := fun h _ => if h = "a" then ReadResult.notFound else ReadResult.err,
          aborted := fun _ => false } [("a", "A"), ("b", "B")]).sleeps =
      [100, 1000, 1000, 1000, 1000] :=
  C8_not_found_vs_retries_exhausted "a" "b" "A" "B" (by decide)

/-- C10: in the first pass a transient (non-`NotFound`) read error is
immediately recorded as `{value: 0, timestamp: 0, found: false}` with no
`failed` flag — byte-for-byte the record of a confirmed not-found — and the
asset is only queued; if the scan is cancelled before the retry phase the
record stays in that indistinguishable state, and only a completed retry
phase overwrites it with `failed: true` (retries exhausted) or
`found: true` (a later read succeeds). -/
theorem C10_transient_error_indistinguishable_until_retry :
    (firstPassRead { read := fun _ _ => ReadResult.err, aborted := fun _ => false }
        initValSt ("h", "n")).2 =
      (firstPassRead { read := fun _ _ => ReadResult.notFound, aborted := fun _ => false }
        initValSt ("h", "n")).2 ∧
    (firstPassRead { read := fun _ _ => ReadResult.err, aborted := fun _ => false }
        initValSt ("h", "n")).1.failedScans = [("h", "n")] ∧
    (scanValues { read := fun _ _ => ReadResult.err, aborted := fun t => decide (1 ≤ t) }
        [("h", "n")]).values =
      [("h", { value := 0, timestamp := 0, found := false, failed := false })] ∧
    (scanValues { read := fun _ _ => ReadResult.notFound, aborted := fun _ => false }
        [("h", "n")]).values =
      [("h", { value := 0, timestamp := 0, found := false, failed := false })] ∧
    (scanValues { read := fun _ _ => ReadResult.err, aborted := fun _ => false }
        [("h", "n")]).values =
      [("h", { value := 0, timestamp := 0, found := false, failed := true })] ∧
    (mapGet (scanValues
        { read := fun _ n => if n = 0 then ReadResult.err else ReadResult.ok 2 3,
          aborted := fun _ => false } [("h", "n")]).values "h").map
      (fun r => (r.found, r.failed)) = some (true, false) := by
  refine ⟨by decide, by decide, by decide, by decide, by decide, by decide⟩

/-- C9: once the cancellation token is observed, no further network call is
issued and everything already ingested stays intact.  With the cancellation
flag set: the range loop exits normally from any state with the transaction
and stats stores, the range-fetch counter, the issued-batch list and the
awaited delays all unchanged; the value scanner's batch loop performs no
read and leaves the value map unchanged; and so does its retry phase. -/
theorem C9_cancellation_preserves_state_and_stops_calls :
    (∀ (env : ScanEnv) (fuel : Nat) (st : ScanSt), (∀ t, env.aborted t = true) →
      ∃ st', fetchTransactionsLoop env (fuel + 1) st = some (Except.ok st') ∧
        st'.store = st.store ∧ st'.callIdx = st.callIdx ∧
        st'.fetched = st.fetched ∧ st'.sleeps = st.sleeps) ∧
    (∀ (env : ValEnv) (batches : List (List (String × String))) (st : ValSt),
      (∀ t, env.aborted t = true) →
      (firstPass env batches st).values = st.values ∧
      (firstPass env batches st).calls = st.calls) ∧
    (∀ (env : ValEnv) (queue : List (String × String)) (st : ValSt),
      (∀ t, env.aborted t = true) →
      (retryPhase env queue st).values = st.values ∧
      (retryPhase env queue st).calls = st.calls) := by
  refine ⟨?_, ?_, ?_⟩
  · intro env fuel st hA
    rw [fetchTransactionsLoop]
    unfold fetchTransactionsIter
    by_cases hb0 : st.block = 0
    · rw [if_pos hb0]
      exact ⟨st, rfl, rfl, rfl, rfl, rfl⟩
    · rw [if_neg hb0, hA]
      exact ⟨{ st with tick := st.tick + 1 }, rfl, rfl, rfl, rfl, rfl⟩
  · intro env batches st hA
    cases batches with
    | nil => exact ⟨rfl, rfl⟩
    | cons b rest =>
      rw [firstPass, if_pos (hA st.tick)]
      exact ⟨rfl, rfl⟩
  · intro env queue st hA
    cases queue with
    | nil => exact ⟨rfl, rfl⟩
    | cons q rest =>
      rw [retryPhase, if_pos (hA st.tick)]
      exact ⟨rfl, rfl⟩

def envAb : ScanEnv := { envW with aborted := fun _ => true }

def valEnvAb : ValEnv := { read := fun _ _ => ReadResult.err, aborted := fun _ => true }

theorem C9_cancellation_preserves_state_and_stops_calls_witness :
    (∃ st', fetchTransactionsLoop envAb 1 (initScanSt 7) = some (Except.ok st') ∧
      st'.store = (initScanSt 7).store ∧ st'.callIdx = (initScanSt 7).callIdx ∧
      st'.fetched = (initScanSt 7).fetched ∧ st'.sleeps = (initScanSt 7).sleeps) ∧
    ((firstPass valEnvAb [[("h", "n")]] initValSt).values = initValSt.values ∧
      (firstPass valEnvAb [[("h", "n")]] initValSt).calls = initValSt.calls) ∧
    ((retryPhase valEnvAb [("h", "n")] initValSt).values = initValSt.values ∧
      (retryPhase valEnvAb [("h", "n")] initValSt).calls = initValSt.calls) :=
  ⟨C9_cancellation_preserves_state_and_stops_calls.1 envAb 0 (initScanSt 7) (fun _ => rfl),
   C9_cancellation_preserves_state_and_stops_calls.2.1 valEnvAb [[("h", "n")]] initValSt (fun _ => rfl),
   C9_cancellation_preserves_state_and_stops_calls.2.2 valEnvAb [("h", "n")] initValSt (fun _ => rfl)⟩

end StorkAnalytics
